import Mathlib

/-
Shallow embedding of the agent-conversation streaming and reconciliation
engine of the cc-web repository.

Sources embedded:
  - packages/web/src/stores/sessionStore.ts   (message store operations)
  - packages/web/src/hooks/useChatSession.ts  (turn controller and event
    reconciler: handleSend, processQueue, handleAbort, and the onMessage /
    onError / onDone stream callbacks)
  - packages/web/src/lib/api.ts               (streamAgentQuery framing,
    used only for which callbacks fire on completion, error and abort)

JavaScript Maps and Sets are embedded as association lists / membership
lists; `Date.now()` / `new Date()` as a logical clock stored in the store;
`crypto.randomUUID()` as a fresh-id counter.  JS truthiness tests on
payload values (`!m.toolResult`, `!prompt.trim()`, string truthiness) are
embedded explicitly via the corresponding emptiness / falsiness checks.
-/

namespace CCWeb

/-- A content block of an assistant or tool-result payload: an object with a
type tag and a text field, as produced by the agent backend. -/
structure ContentBlock where
  type : String
  text : String
deriving Repr, DecidableEq

/-- `items.filter(i => i.type === "text").map(i => i.text).join("")` — the
block-joining idiom used both in extractTextFromResult and in the assistant
branch of the reconciler. -/
def joinTexts (items : List ContentBlock) : String :=
  String.join ((items.filter (fun c => c.type == "text")).map (fun c => c.text))

/-- The `unknown` tool-result payload value reaching the reconciler.  The
constructors record the JavaScript dynamic type together with the outcome of
the `JSON.parse` attempt that `extractTextFromResult` performs on strings:
`strPlain` is a string whose parse fails or yields a non-array, and
`strJsonBlocks` is a (necessarily non-empty) string that parses to an array
of blocks.  `otherVal` covers non-string non-array values and records their
`String(...)` rendering and their JS truthiness. -/
inductive ToolResultPayload where
  | strPlain (s : String)
  | strJsonBlocks (s : String) (items : List ContentBlock)
  | blocksArr (items : List ContentBlock)
  | otherVal (stringified : String) (falsy : Bool)
deriving Repr, DecidableEq

/-- JS falsiness of a tool-result payload value (`!result`): the empty
string is falsy, every non-empty string and every array is truthy. -/
def ToolResultPayload.isFalsy : ToolResultPayload → Bool
  | .strPlain s => s.isEmpty
  | .strJsonBlocks _ _ => false
  | .blocksArr _ => false
  | .otherVal _ f => f

/-- `!m.toolResult` on a message field: absent or falsy. -/
def resultFalsy : Option ToolResultPayload → Bool
  | none => true
  | some p => p.isFalsy

/-- `extractTextFromResult` from useChatSession.ts: plain strings are
returned as is; a string parsing as a JSON array, or an array, is reduced to
the joined text blocks; anything else is stringified. -/
def extractTextFromResult : ToolResultPayload → String
  | .strPlain s => s
  | .strJsonBlocks _ items => joinTexts items
  | .blocksArr items => joinTexts items
  | .otherVal s _ => s

/-- The `message.message?.content` payload of an assistant event: either a
string or an array of content blocks. -/
inductive ContentVal where
  | str (s : String)
  | blocksArr (items : List ContentBlock)
deriving Repr, DecidableEq

/-- JS truthiness of an assistant content payload (arrays are objects and
hence truthy; the empty string is falsy). -/
def contentTruthy : ContentVal → Bool
  | .str s => !s.isEmpty
  | .blocksArr _ => true

/-- The text the assistant branch appends for a content payload. -/
def extractAssistantText : ContentVal → String
  | .str s => s
  | .blocksArr items => joinTexts items

/-- Attachment metadata, as in sessionStore.ts. -/
structure Attachment where
  id : String
  originalName : String
  storedPath : String
  mimeType : String
  size : Nat
deriving Repr, DecidableEq

/-- The fields of `message.toolInput` that the Task branch reads. -/
structure ToolInput where
  subagent_type : Option String := none
  description : Option String := none
  prompt : Option String := none
deriving Repr, DecidableEq

/-- A message of the session store (interface Message in sessionStore.ts).
Optional TS fields are `Option`s; `timestamp`, `endTime`, `taskStartTime`
and `taskEndTime` are logical-clock values. -/
structure Msg where
  id : Nat := 0
  role : String := ""
  content : String := ""
  timestamp : Nat := 0
  endTime : Option Nat := none
  toolName : Option String := none
  toolInput : Option ToolInput := none
  toolResult : Option ToolResultPayload := none
  isStreaming : Option Bool := none
  attachments : Option (List Attachment) := none
  taskType : Option String := none
  taskDescription : Option String := none
  taskPrompt : Option String := none
  taskStartTime : Option Nat := none
  taskEndTime : Option Nat := none
  taskToolCount : Option Nat := none
  isTaskLoading : Option Bool := none
  taskResult : Option String := none
deriving Repr, DecidableEq

/-- A `Partial<Message>` restricted to the fields the source ever passes to
updateMessage.  A `none` field is absent from the update object. -/
structure MsgUpdate where
  content : Option String := none
  endTime : Option Nat := none
  toolResult : Option ToolResultPayload := none
  isStreaming : Option Bool := none
  taskEndTime : Option Nat := none
  taskToolCount : Option Nat := none
  isTaskLoading : Option Bool := none
  taskResult : Option String := none
deriving Repr, DecidableEq

/-- Field merge for the spread `{ ...msg, ...updates }`. -/
def updField (new old : Option α) : Option α :=
  match new with
  | some v => some v
  | none => old

/-- `{ ...msg, ...updates }` of updateMessage in sessionStore.ts. -/
def applyUpd (m : Msg) (u : MsgUpdate) : Msg :=
  { m with
    content := match u.content with | some c => c | none => m.content
    endTime := updField u.endTime m.endTime
    toolResult := updField u.toolResult m.toolResult
    isStreaming := updField u.isStreaming m.isStreaming
    taskEndTime := updField u.taskEndTime m.taskEndTime
    taskToolCount := updField u.taskToolCount m.taskToolCount
    isTaskLoading := updField u.isTaskLoading m.isTaskLoading
    taskResult := updField u.taskResult m.taskResult }

/-- `map.get(k)` on an association-list embedding of a JS Map. -/
def alGet (l : List (String × β)) (k : String) : Option β :=
  match l.find? (fun p => p.fst == k) with
  | some p => some p.snd
  | none => none

/-- `map.set(k, v)`: replace the entry in place if the key is present,
append otherwise. -/
def alSet (l : List (String × β)) (k : String) (v : β) : List (String × β) :=
  match l with
  | [] => [(k, v)]
  | p :: rest => if p.fst == k then (k, v) :: rest else p :: alSet rest k v

/-- `map.delete(k)`: remove the entry with the key (keys are unique in a
JS Map). -/
def alErase (l : List (String × β)) (k : String) : List (String × β) :=
  match l with
  | [] => []
  | p :: rest => if p.fst == k then rest else p :: alErase rest k

/-- Embedding of JS `prompt.trim()`: strip leading and trailing whitespace
(structurally, over the character list, so that it evaluates by reduction). -/
def jsTrim (s : String) : String :=
  String.mk (((s.data.dropWhile Char.isWhitespace).reverse.dropWhile
    Char.isWhitespace).reverse)

/-- `set.add(x)` on a membership-list embedding of a JS Set. -/
def setAddElem (l : List String) (x : String) : List String :=
  if l.contains x then l else l ++ [x]

/-- `set.delete(x)`. -/
def setDelElem (l : List String) (x : String) : List String :=
  l.filter (fun y => !(y == x))

/-- The session store state touched by the core: the per-session message
lists, the per-session agent-correlation ids (sessions' optional
agentSessionId), the loading-session set, plus a fresh-id counter standing
for `crypto.randomUUID()` and a logical clock standing for `Date.now()`. -/
structure Store where
  messages : List (String × List Msg) := []
  sessions : List (String × Option String) := []
  loadingIds : List String := []
  nextId : Nat := 0
  clock : Nat := 0
deriving Repr, DecidableEq

/-- Advance the logical clock (time passes at each entry point). -/
def tick (s : Store) : Store := { s with clock := s.clock + 1 }

/-- getMessages from sessionStore.ts: `messages.get(sessionId) || []`. -/
def getMessages (s : Store) (sid : String) : List Msg :=
  (alGet s.messages sid).getD []

/-- addMessage from sessionStore.ts: assign a fresh id and timestamp,
append to the session's list (creating it via `|| []` when absent), return
the new id. -/
def addMessage (s : Store) (sid : String) (m : Msg) : Store × Nat :=
  let newMsg := { m with id := s.nextId, timestamp := s.clock }
  ({ s with
      messages := alSet s.messages sid (getMessages s sid ++ [newMsg])
      nextId := s.nextId + 1 },
   s.nextId)

/-- Replace the first message with the given id by its updated copy
(`findIndex` + in-place replacement in updateMessage). -/
def updateFirst (l : List Msg) (mid : Nat) (u : MsgUpdate) : List Msg :=
  match l with
  | [] => []
  | m :: rest =>
      if m.id == mid then applyUpd m u :: rest else m :: updateFirst rest mid u

/-- updateMessage from sessionStore.ts: merge the fields into the message
found by id; no-op when the message (or session) is unknown
(`index !== -1` guard). -/
def updateMessage (s : Store) (sid : String) (mid : Nat) (u : MsgUpdate) : Store :=
  if (((getMessages s sid).find? (fun m => m.id == mid)).isSome) then
    { s with messages := alSet s.messages sid (updateFirst (getMessages s sid) mid u) }
  else s

/-- setAgentSessionId from sessionStore.ts: update the matching session
entry only (no-op for an unknown session). -/
def setAgentSessionId (s : Store) (sid aid : String) : Store :=
  { s with
    sessions := s.sessions.map (fun p => if p.fst == sid then (p.fst, some aid) else p) }

/-- getAgentSessionId from sessionStore.ts. -/
def getAgentSessionId (s : Store) (sid : String) : Option String :=
  match s.sessions.find? (fun p => p.fst == sid) with
  | some p => p.snd
  | none => none

/-- setSessionLoading from sessionStore.ts. -/
def setSessionLoading (s : Store) (sid : String) (b : Bool) : Store :=
  { s with
    loadingIds := if b then setAddElem s.loadingIds sid else setDelElem s.loadingIds sid }

/-- isSessionLoading from sessionStore.ts. -/
def isSessionLoading (s : Store) (sid : String) : Bool :=
  s.loadingIds.contains sid

/-- The ActiveTask reference of useChatSession.ts. -/
structure ActiveTask where
  messageId : Nat
  toolCount : Nat
  startTime : Nat
  toolId : Option String := none
deriving Repr, DecidableEq

/-- The per-turn closure state of handleSend: the target session, the
captured agentSessionId, the placeholder id, the accumulated text, and the
active-task reference. -/
structure TurnCtx where
  sessionId : String
  capturedAgentId : Option String := none
  assistantMessageId : Nat
  fullContent : String := ""
  activeTask : Option ActiveTask := none
deriving Repr, DecidableEq

/-- One event object delivered by the transport to the onMessage callback,
restricted to the fields the reconciler reads. -/
structure AgentEvent where
  type : String
  toolName : Option String := none
  toolInput : Option ToolInput := none
  toolId : Option String := none
  toolResult : ToolResultPayload := .otherVal "undefined" true
  content : Option ContentVal := none
  agentSessionId : Option String := none
deriving Repr, DecidableEq

/-- JS falsiness of an optional string (absent or empty). -/
def strOptFalsy : Option String → Bool
  | none => true
  | some s => s.isEmpty

/-- The leading `if (message.agentSessionId && !agentSessionId && sessionId)`
of the onMessage callback (it does not return, so it composes with the
branches below). -/
def applyAgentIdCapture (store : Store) (c : TurnCtx) (e : AgentEvent) : Store :=
  match e.agentSessionId with
  | some aid =>
      if ¬aid.isEmpty ∧ strOptFalsy c.capturedAgentId = true ∧ ¬c.sessionId.isEmpty then
        setAgentSessionId store c.sessionId aid
      else store
  | none => store

/-- The scan predicate `m.role === "tool" && !m.toolResult` of the
tool-result fallback: a tool message whose result is absent or falsy. -/
def unresolvedTool (m : Msg) : Bool :=
  m.role == "tool" && resultFalsy m.toolResult

/-- The `tool_result` fallback: update the most recently appended tool
message with no (truthy) result; drop the event when none exists
(`[...messages].reverse().find(m => m.role === "tool" && !m.toolResult)`). -/
def fallbackAssign (store : Store) (c : TurnCtx) (e : AgentEvent) : Store × TurnCtx :=
  match (getMessages store c.sessionId).reverse.find? unresolvedTool with
  | some m => (updateMessage store c.sessionId m.id { toolResult := some e.toolResult }, c)
  | none => (store, c)

/-- `Complete any existing/active task`: the update
`{ isTaskLoading: false, taskEndTime: Date.now(), taskToolCount: current }`
applied to the active task's message, together with the cleared reference;
shared by the Task-open, assistant and result branches. -/
def finalizeActiveTask (store : Store) (c : TurnCtx) : Store × TurnCtx :=
  match c.activeTask with
  | some act =>
      (updateMessage store c.sessionId act.messageId
         { isTaskLoading := some false, taskEndTime := some store.clock,
           taskToolCount := some act.toolCount },
       { c with activeTask := none })
  | none => (store, c)

/-- The Task tool-call branch: complete any existing task, append a new
task message (loading, tool count 0), and point the active-task reference at
it (remembering the call's tool id for result matching). -/
def taskOpenBranch (store : Store) (c : TurnCtx) (e : AgentEvent) : Store × TurnCtx :=
  let input := e.toolInput.getD {}
  let taskType := match input.subagent_type with
    | some s => if s.isEmpty then "Task" else s
    | none => "Task"
  let taskDescription := match input.description with
    | some s => if s.isEmpty then "Running task..." else s
    | none => "Running task..."
  let store := (finalizeActiveTask store c).fst
  let res := addMessage store c.sessionId
    { role := "task", content := "", taskType := some taskType,
      taskDescription := some taskDescription, taskPrompt := input.prompt,
      taskStartTime := some store.clock, isTaskLoading := some true,
      taskToolCount := some 0 }
  (res.fst,
   { c with activeTask := some (
      { messageId := res.snd, toolCount := 0, startTime := res.fst.clock,
        toolId := e.toolId } : ActiveTask) })

/-- The non-Task tool-call branch: count the call on the active task
(if one exists), then always append a standalone tool message. -/
def toolCallBranch (store : Store) (c : TurnCtx) (e : AgentEvent) : Store × TurnCtx :=
  let sc := match c.activeTask with
    | some act =>
        (updateMessage store c.sessionId act.messageId
           { taskToolCount := some (act.toolCount + 1) },
         { c with activeTask := some { act with toolCount := act.toolCount + 1 } })
    | none => (store, c)
  let res := addMessage sc.fst c.sessionId
    { role := "tool", content := "", toolName := e.toolName, toolInput := e.toolInput }
  (res.fst, sc.snd)

/-- The tool-result branch: when the event's (truthy) tool id equals the
active task's stored tool id, finalize the task with the extracted result
text and clear the reference; otherwise fall back to the newest-first scan. -/
def toolResultBranch (store : Store) (c : TurnCtx) (e : AgentEvent) : Store × TurnCtx :=
  match c.activeTask, e.toolId with
  | some act, some tid =>
      if ¬tid.isEmpty ∧ act.toolId = some tid then
        (updateMessage store c.sessionId act.messageId
           { isTaskLoading := some false, taskEndTime := some store.clock,
             taskToolCount := some act.toolCount,
             taskResult := some (extractTextFromResult e.toolResult) },
         { c with activeTask := none })
      else fallbackAssign store c e
  | _, _ => fallbackAssign store c e

/-- The assistant branch: complete any active task first (without a
result), then append the extracted text to the accumulated content and
write it into the placeholder. -/
def assistantBranch (store : Store) (c : TurnCtx) (e : AgentEvent) : Store × TurnCtx :=
  let sc := finalizeActiveTask store c
  let newText := match e.content with
    | some cv => extractAssistantText cv
    | none => ""
  let full := sc.snd.fullContent ++ newText
  (updateMessage sc.fst c.sessionId c.assistantMessageId { content := some full },
   { sc.snd with fullContent := full })

/-- The result branch (end of query): complete any active task, then clear
the placeholder's streaming flag and set its end time. -/
def resultBranch (store : Store) (c : TurnCtx) : Store × TurnCtx :=
  let sc := finalizeActiveTask store c
  (updateMessage sc.fst c.sessionId c.assistantMessageId
     { isStreaming := some false, endTime := some sc.fst.clock },
   sc.snd)

/-- The onMessage callback of handleSend — the Event Reconciler: one event
mapped onto store mutations and the new closure state. -/
def stepEvent (store0 : Store) (c : TurnCtx) (e : AgentEvent) : Store × TurnCtx :=
  let store := applyAgentIdCapture (tick store0) c e
  if e.type = "tool_call" ∧ e.toolName = some "Task" then
    taskOpenBranch store c e
  else if e.type = "tool_call" then
    toolCallBranch store c e
  else if e.type = "tool_result" then
    toolResultBranch store c e
  else if e.type = "assistant" ∧ (e.content.map contentTruthy).getD false = true then
    assistantBranch store c e
  else if e.type = "result" then
    resultBranch store c
  else (store, c)

/-- A queued prompt (interface QueuedMessage of useChatSession.ts). -/
structure QueuedMessage where
  prompt : String
  model : Option String := none
  files : List String := []
  thinkLevel : Option Nat := none
  planMode : Option Bool := none
deriving Repr, DecidableEq

/-- Outcome of `api.uploadAttachments` (external collaborator). -/
inductive UploadOutcome where
  | ok (atts : List Attachment)
  | failed (errMsg : String)
deriving Repr, DecidableEq

/-- The state reachable from the hook: the store, the per-session message
queues (module-level messageQueues map), and the at-most-one in-flight turn
tracked by abortRef / the handleSend closure. -/
structure GlobalSt where
  store : Store := {}
  queues : List (String × List QueuedMessage) := []
  turn : Option TurnCtx := none
deriving Repr, DecidableEq

/-- processQueue from useChatSession.ts: pop the queue head and hand it
back for dispatch (the `setTimeout(handleSend(...))` call) when the session
is not loading. -/
def processQueue (g : GlobalSt) (sid : String) : GlobalSt × Option QueuedMessage :=
  match (alGet g.queues sid).getD [] with
  | [] => (g, none)
  | m :: rest =>
      if isSessionLoading g.store sid then (g, none)
      else ({ g with queues := alSet g.queues sid rest }, some m)

/-- handleSend from useChatSession.ts, up to and including opening the
stream: the guard `if (!sessionId || !prompt.trim()) return`, the queueing
branch, the upload, the user message, the placeholder, and the new turn
closure.  `upload` is the outcome of the attachment upload (consulted only
when `req.files` is non-empty); the returned option is the queued request
handed to a `setTimeout` dispatch by the upload-failure path. -/
def handleSend (g : GlobalSt) (sid? : Option String) (req : QueuedMessage)
    (upload : UploadOutcome) : GlobalSt × Option QueuedMessage :=
  match sid? with
  | none => (g, none)
  | some sid =>
    if sid.isEmpty ∨ jsTrim req.prompt = "" then (g, none)
    else if isSessionLoading g.store sid then
      ({ g with queues := alSet g.queues sid (((alGet g.queues sid).getD []) ++ [req]) },
       none)
    else
      let store := setSessionLoading (tick g.store) sid true
      match (if req.files.isEmpty then UploadOutcome.ok [] else upload) with
      | .failed msg =>
          let res := addMessage store sid
            { role := "system", content := "File upload failed: " ++ msg }
          let store := setSessionLoading res.fst sid false
          processQueue { g with store := store } sid
      | .ok atts =>
          let res := addMessage store sid
            { role := "user", content := req.prompt,
              attachments := if atts.isEmpty then none else some atts }
          let res2 := addMessage res.fst sid
            { role := "assistant", content := "", isStreaming := some true }
          ({ g with
              store := res2.fst
              turn := some (
                { sessionId := sid,
                  capturedAgentId := getAgentSessionId g.store sid,
                  assistantMessageId := res2.snd } : TurnCtx) },
           none)

/-- Deliver one stream event to the in-flight turn's onMessage callback. -/
def deliverEvent (g : GlobalSt) (e : AgentEvent) : GlobalSt :=
  match g.turn with
  | none => g
  | some c =>
      let sc := stepEvent g.store c e
      { g with store := sc.fst, turn := some sc.snd }

/-- The onDone callback of handleSend (fired on the `[DONE]` frame):
complete any active task, close the placeholder, clear loading, release the
turn, then processQueue. -/
def onDone (g : GlobalSt) : GlobalSt × Option QueuedMessage :=
  match g.turn with
  | none => (g, none)
  | some c =>
      let store := tick g.store
      let store := match c.activeTask with
        | some act =>
            updateMessage store c.sessionId act.messageId
              { isTaskLoading := some false, taskEndTime := some store.clock }
        | none => store
      let store := updateMessage store c.sessionId c.assistantMessageId
        { isStreaming := some false, endTime := some store.clock }
      let store := setSessionLoading store c.sessionId false
      processQueue { g with store := store, turn := none } c.sessionId

/-- The onError callback of handleSend (fired on a non-abort stream error):
complete any active task, write the error string into the placeholder,
close it, clear loading, then processQueue. -/
def onError (g : GlobalSt) (msg : String) : GlobalSt × Option QueuedMessage :=
  match g.turn with
  | none => (g, none)
  | some c =>
      let store := tick g.store
      let store := match c.activeTask with
        | some act =>
            updateMessage store c.sessionId act.messageId
              { isTaskLoading := some false, taskEndTime := some store.clock }
        | none => store
      let store := updateMessage store c.sessionId c.assistantMessageId
        { content := some ("Error: " ++ msg), isStreaming := some false,
          endTime := some store.clock }
      let store := setSessionLoading store c.sessionId false
      processQueue { g with store := store, turn := none } c.sessionId

/-- handleAbort from useChatSession.ts: complete any active task (without a
result), abort the stream (after which streamAgentQuery swallows the
AbortError, so neither onError nor onDone ever fires for this turn), clear
loading and delete the session's queue.  `sid?` is the hook's current
sessionId. -/
def handleAbort (g : GlobalSt) (sid? : Option String) : GlobalSt :=
  let store := tick g.store
  let store :=
    match g.turn, sid? with
    | some c, some sid =>
        if ¬sid.isEmpty then
          match c.activeTask with
          | some act =>
              updateMessage store sid act.messageId
                { isTaskLoading := some false, taskEndTime := some store.clock }
          | none => store
        else store
    | _, _ => store
  let store := match sid? with
    | some sid => if ¬sid.isEmpty then setSessionLoading store sid false else store
    | none => store
  let queues := match sid? with
    | some sid => if ¬sid.isEmpty then alErase g.queues sid else g.queues
    | none => g.queues
  -- abortRef.current?.abort(): the turn delivers no further events/callbacks
  { store := store, queues := queues, turn := none }

/-- Look a message up by id (`messages.find(m => m.id === messageId)`). -/
def getMsg (l : List Msg) (mid : Nat) : Option Msg :=
  l.find? (fun m => m.id == mid)

/-- The ids of a message list. -/
def idsOf (l : List Msg) : List Nat :=
  l.map (fun m => m.id)

/-- Well-formed message list: distinct ids, all below the fresh-id counter
(the embedding's stand-in for randomUUID uniqueness). -/
def listWf (l : List Msg) (n : Nat) : Prop :=
  (idsOf l).Nodup ∧ ∀ i ∈ idsOf l, i < n

/-- Every session's message list is well-formed. -/
def StoreWf (s : Store) : Prop :=
  ∀ sid, listWf (getMessages s sid) s.nextId

/-- The text an event contributes to the placeholder: the extracted payload
of an assistant event, nothing for every other event. -/
def deltaText (e : AgentEvent) : String :=
  if e.type = "assistant" then
    match e.content with
    | some cv => extractAssistantText cv
    | none => ""
  else ""

/-- Concatenation of all delta payloads in arrival order. -/
def concatDeltas : List AgentEvent → String
  | [] => ""
  | e :: es => deltaText e ++ concatDeltas es

/-- Fold a whole event sequence through the reconciler. -/
def runEvents (store : Store) (c : TurnCtx) (es : List AgentEvent) : Store × TurnCtx :=
  es.foldl (fun p e => stepEvent p.fst p.snd e) (store, c)

/-- Task invariant: every message still showing loading=true is the one the
active-task reference points at (so there is at most one, and none once the
reference is cleared). -/
def taskLoadingInv (store : Store) (c : TurnCtx) : Prop :=
  ∀ m ∈ getMessages store c.sessionId, m.isTaskLoading = some true →
    ∃ act, c.activeTask = some act ∧ act.messageId = m.id

/-- Placeholder invariant: the turn's placeholder message exists, is an
assistant message whose content is the accumulated text, and is never the
active task's message. -/
def placeholderInv (store : Store) (c : TurnCtx) : Prop :=
  (∃ m0, getMsg (getMessages store c.sessionId) c.assistantMessageId = some m0 ∧
      m0.role = "assistant" ∧ m0.content = c.fullContent) ∧
  ∀ act, c.activeTask = some act → act.messageId ≠ c.assistantMessageId

/-- A small concrete state used to exercise the abort path: one task
message still loading, an active-task reference to it, a busy session and
two queued prompts. -/
def abortDemoSt : GlobalSt :=
  { store :=
      { messages := [("s", [{ id := 1, role := "task", isTaskLoading := some true }])]
        loadingIds := ["s"]
        nextId := 2 }
    queues := [("s", [{ prompt := "a" }, { prompt := "b" }])]
    turn := some
      { sessionId := "s"
        assistantMessageId := 0
        activeTask := some { messageId := 1, toolCount := 0, startTime := 0 } } }

/-- A finished placeholder message in a one-session store (used to exercise
the terminal-event replay path). -/
def finishedDemoMsg : Msg :=
  { id := 0, role := "assistant", content := "done!", isStreaming := some false,
    endTime := some 5 }

def finishedDemoStore : Store :=
  { messages := [("s", [finishedDemoMsg])]
    nextId := 1
    clock := 9 }

/-- A fresh turn context aimed at message 0 of session "s". -/
def demoCtx : TurnCtx :=
  { sessionId := "s", assistantMessageId := 0 }

/-- A store holding just an empty streaming placeholder (turn start). -/
def startDemoMsg : Msg :=
  { id := 0, role := "assistant", content := "", isStreaming := some true }

def startDemoStore : Store :=
  { messages := [("s", [startDemoMsg])]
    nextId := 1 }

/-- Two text deltas with a tool call interleaved. -/
def demoDeltas : List AgentEvent :=
  [{ type := "assistant", content := some (.str "Hello ") },
   { type := "tool_call", toolName := some "Bash" },
   { type := "assistant", content := some (.str "world") }]

/-- A tool message already carrying a (truthy) result. -/
def toolDemoMsg : Msg :=
  { id := 0, role := "tool", toolResult := some (.strPlain "ok") }

/-- A store holding just that resolved tool message. -/
def toolDemoStore : Store :=
  { messages := [("s", [toolDemoMsg])]
    nextId := 1 }

/-- A turn context whose placeholder id collides with no message. -/
def cxDemoCtx : TurnCtx :=
  { sessionId := "s", assistantMessageId := 100 }

/-- A state with an in-flight turn on session "s" whose placeholder is
message 0. -/
def turnDemoSt : GlobalSt :=
  { store := startDemoStore, turn := some demoCtx }

/-- The pending queue of a session (`messageQueues.get(sid) || []`). -/
def queueOf (g : GlobalSt) (sid : String) : List QueuedMessage :=
  (alGet g.queues sid).getD []

/-- The queue map has JS-Map key uniqueness. -/
def queueKeysNodup (g : GlobalSt) : Prop :=
  (g.queues.map (fun p => p.fst)).Nodup

end CCWeb

namespace CCWeb

theorem updField_none (old : Option α) : updField none old = old := rfl

theorem updField_some (v : α) (old : Option α) : updField (some v) old = some v := rfl

theorem applyUpd_id (m : Msg) (u : MsgUpdate) : (applyUpd m u).id = m.id := rfl

theorem applyUpd_role (m : Msg) (u : MsgUpdate) : (applyUpd m u).role = m.role := rfl

theorem applyUpd_toolResult (m : Msg) (u : MsgUpdate) :
    (applyUpd m u).toolResult = updField u.toolResult m.toolResult := rfl

theorem applyUpd_isTaskLoading (m : Msg) (u : MsgUpdate) :
    (applyUpd m u).isTaskLoading = updField u.isTaskLoading m.isTaskLoading := rfl

theorem applyUpd_taskEndTime (m : Msg) (u : MsgUpdate) :
    (applyUpd m u).taskEndTime = updField u.taskEndTime m.taskEndTime := rfl

theorem applyUpd_taskToolCount (m : Msg) (u : MsgUpdate) :
    (applyUpd m u).taskToolCount = updField u.taskToolCount m.taskToolCount := rfl

theorem applyUpd_taskResult (m : Msg) (u : MsgUpdate) :
    (applyUpd m u).taskResult = updField u.taskResult m.taskResult := rfl

theorem applyUpd_isStreaming (m : Msg) (u : MsgUpdate) :
    (applyUpd m u).isStreaming = updField u.isStreaming m.isStreaming := rfl

theorem applyUpd_endTime (m : Msg) (u : MsgUpdate) :
    (applyUpd m u).endTime = updField u.endTime m.endTime := rfl

theorem applyUpd_content (m : Msg) (u : MsgUpdate) :
    (applyUpd m u).content = match u.content with | some c => c | none => m.content := rfl

theorem getMsg_nil (mid : Nat) : getMsg [] mid = none := rfl

theorem getMsg_cons (a : Msg) (l : List Msg) (mid : Nat) :
    getMsg (a :: l) mid = if a.id = mid then some a else getMsg l mid := by
  by_cases h : a.id = mid <;> simp [getMsg, List.find?_cons, h]

theorem updateFirst_nil (mid : Nat) (u : MsgUpdate) : updateFirst [] mid u = [] := rfl

theorem updateFirst_cons (a : Msg) (l : List Msg) (mid : Nat) (u : MsgUpdate) :
    updateFirst (a :: l) mid u =
      if a.id = mid then applyUpd a u :: l else a :: updateFirst l mid u := by
  by_cases h : a.id = mid <;> simp [updateFirst, h]

theorem getMsg_eq_some (l : List Msg) (mid : Nat) (m : Msg)
    (h : getMsg l mid = some m) : m ∈ l ∧ m.id = mid := by
  refine ⟨List.mem_of_find?_eq_some h, ?_⟩
  have := List.find?_some h
  simpa using this

theorem getMsg_eq_none_of_not_mem (l : List Msg) (mid : Nat)
    (h : mid ∉ idsOf l) : getMsg l mid = none := by
  cases hg : getMsg l mid with
  | none => rfl
  | some m =>
      obtain ⟨hm, hid⟩ := getMsg_eq_some l mid m hg
      exact absurd (hid ▸ List.mem_map_of_mem (fun x => x.id) hm) h

theorem getMsg_updateFirst_self (l : List Msg) (mid : Nat) (u : MsgUpdate) (m : Msg)
    (h : getMsg l mid = some m) :
    getMsg (updateFirst l mid u) mid = some (applyUpd m u) := by
  induction l with
  | nil => simp [getMsg_nil] at h
  | cons a rest ih =>
      rw [getMsg_cons] at h
      rw [updateFirst_cons]
      by_cases ha : a.id = mid
      · simp only [if_pos ha] at h ⊢
        obtain rfl : a = m := by injection h
        rw [getMsg_cons]
        simp [applyUpd_id, ha]
      · simp only [if_neg ha] at h ⊢
        rw [getMsg_cons, if_neg ha]
        exact ih h

theorem getMsg_updateFirst_ne (l : List Msg) (mid mid2 : Nat) (u : MsgUpdate)
    (h : mid2 ≠ mid) :
    getMsg (updateFirst l mid u) mid2 = getMsg l mid2 := by
  induction l with
  | nil => rfl
  | cons a rest ih =>
      rw [updateFirst_cons]
      by_cases ha : a.id = mid
      · rw [if_pos ha, getMsg_cons, getMsg_cons]
        have : ¬(applyUpd a u).id = mid2 := by
          rw [applyUpd_id, ha]; exact fun hh => h hh.symm
        rw [if_neg this, if_neg (by rw [ha]; exact fun hh => h hh.symm)]
      · rw [if_neg ha, getMsg_cons, getMsg_cons, ih]

theorem updateFirst_of_getMsg_none (l : List Msg) (mid : Nat) (u : MsgUpdate)
    (h : getMsg l mid = none) : updateFirst l mid u = l := by
  induction l with
  | nil => rfl
  | cons a rest ih =>
      rw [getMsg_cons] at h
      by_cases ha : a.id = mid
      · rw [if_pos ha] at h; exact absurd h (by simp)
      · rw [if_neg ha] at h
        rw [updateFirst_cons, if_neg ha, ih h]

theorem idsOf_updateFirst (l : List Msg) (mid : Nat) (u : MsgUpdate) :
    idsOf (updateFirst l mid u) = idsOf l := by
  induction l with
  | nil => rfl
  | cons a rest ih =>
      rw [updateFirst_cons]
      by_cases ha : a.id = mid
      · rw [if_pos ha]; simp [idsOf, applyUpd_id]
      · rw [if_neg ha]; simp only [idsOf, List.map_cons] at ih ⊢; rw [ih]

theorem getMsg_append_of_some (l l2 : List Msg) (mid : Nat) (m : Msg)
    (h : getMsg l mid = some m) : getMsg (l ++ l2) mid = some m := by
  induction l with
  | nil => simp [getMsg_nil] at h
  | cons a rest ih =>
      rw [getMsg_cons] at h
      rw [List.cons_append, getMsg_cons]
      by_cases ha : a.id = mid
      · rwa [if_pos ha] at h ⊢
      · rw [if_neg ha] at h ⊢; exact ih h

theorem getMsg_append_of_none (l l2 : List Msg) (mid : Nat)
    (h : getMsg l mid = none) : getMsg (l ++ l2) mid = getMsg l2 mid := by
  induction l with
  | nil => rfl
  | cons a rest ih =>
      rw [getMsg_cons] at h
      by_cases ha : a.id = mid
      · rw [if_pos ha] at h; exact absurd h (by simp)
      · rw [if_neg ha] at h
        rw [List.cons_append, getMsg_cons, if_neg ha]
        exact ih h

theorem updateFirst_eq_map (l : List Msg) (mid : Nat) (u : MsgUpdate)
    (h : (idsOf l).Nodup) :
    updateFirst l mid u = l.map (fun x => if x.id = mid then applyUpd x u else x) := by
  induction l with
  | nil => rfl
  | cons a rest ih =>
      simp only [idsOf, List.map_cons, List.nodup_cons] at h
      obtain ⟨hnotin, hrest⟩ := h
      rw [updateFirst_cons, List.map_cons]
      by_cases ha : a.id = mid
      · rw [if_pos ha, if_pos ha]
        have hmap : rest.map (fun x => if x.id = mid then applyUpd x u else x) = rest := by
          have hcong : ∀ x ∈ rest,
              (if x.id = mid then applyUpd x u else x) = id x := by
            intro x hx
            have hne : x.id ≠ mid := by
              intro he
              have hxin : x.id ∈ rest.map (fun m => m.id) :=
                List.mem_map_of_mem (fun m => m.id) hx
              rw [he, ← ha] at hxin
              exact hnotin hxin
            simp [hne]
          rw [List.map_congr_left hcong, List.map_id]
        rw [hmap]
      · rw [if_neg ha, if_neg ha]
        congr 1
        exact ih hrest

theorem alGet_cons (p : String × β) (l : List (String × β)) (k : String) :
    alGet (p :: l) k = if p.fst = k then some p.snd else alGet l k := by
  by_cases h : p.fst = k <;> simp [alGet, List.find?_cons, h]

theorem alGet_eq_none_of_not_mem_keys (l : List (String × β)) (k : String)
    (h : k ∉ l.map (fun p => p.fst)) : alGet l k = none := by
  induction l with
  | nil => rfl
  | cons p rest ih =>
      simp only [List.map_cons, List.mem_cons, not_or] at h
      rw [alGet_cons, if_neg (fun he => h.1 he.symm)]
      exact ih h.2

theorem alGet_alSet_self (l : List (String × β)) (k : String) (v : β) :
    alGet (alSet l k v) k = some v := by
  induction l with
  | nil => simp [alSet, alGet_cons]
  | cons p rest ih =>
      by_cases h : p.fst = k
      · simp only [alSet]
        rw [if_pos (by simp [h]), alGet_cons, if_pos rfl]
      · simp only [alSet]
        rw [if_neg (by simp [h]), alGet_cons, if_neg h]
        exact ih

theorem alGet_alSet_ne (l : List (String × β)) (k k2 : String) (v : β)
    (h : k2 ≠ k) : alGet (alSet l k v) k2 = alGet l k2 := by
  induction l with
  | nil =>
      rw [show alSet ([] : List (String × β)) k v = [(k, v)] from rfl, alGet_cons,
        if_neg (fun he => h he.symm)]
  | cons p rest ih =>
      by_cases hp : p.fst = k
      · simp only [alSet]
        rw [if_pos (by simp [hp]), alGet_cons, alGet_cons, if_neg (fun he => h he.symm),
          if_neg (by rw [hp]; exact fun he => h he.symm)]
      · simp only [alSet]
        rw [if_neg (by simp [hp]), alGet_cons, alGet_cons, ih]

theorem alKeys_alSet (l : List (String × β)) (k : String) (v : β) :
    (alSet l k v).map (fun p => p.fst) =
      if k ∈ l.map (fun p => p.fst) then l.map (fun p => p.fst)
      else l.map (fun p => p.fst) ++ [k] := by
  induction l with
  | nil => simp [alSet]
  | cons p rest ih =>
      by_cases hp : p.fst = k
      · simp only [alSet]
        rw [if_pos (by simp [hp])]
        simp [hp]
      · simp only [alSet]
        rw [if_neg (by simp [hp])]
        simp only [List.map_cons, List.mem_cons]
        rw [ih]
        by_cases hk : k ∈ rest.map (fun p => p.fst)
        · rw [if_pos hk, if_pos (Or.inr hk)]
        · rw [if_neg hk, if_neg (by rintro (he | he); exact hp he.symm; exact hk he)]
          rfl

theorem alGet_alErase_self (l : List (String × β)) (k : String)
    (h : (l.map (fun p => p.fst)).Nodup) : alGet (alErase l k) k = none := by
  induction l with
  | nil => rfl
  | cons p rest ih =>
      simp only [List.map_cons, List.nodup_cons] at h
      obtain ⟨hnotin, hrest⟩ := h
      by_cases hp : p.fst = k
      · simp only [alErase]
        rw [if_pos (by simp [hp])]
        exact alGet_eq_none_of_not_mem_keys rest k (hp ▸ hnotin)
      · simp only [alErase]
        rw [if_neg (by simp [hp]), alGet_cons, if_neg hp]
        exact ih hrest

theorem alGet_alErase_ne (l : List (String × β)) (k k2 : String)
    (h : k2 ≠ k) : alGet (alErase l k) k2 = alGet l k2 := by
  induction l with
  | nil => rfl
  | cons p rest ih =>
      by_cases hp : p.fst = k
      · simp only [alErase]
        rw [if_pos (by simp [hp]), alGet_cons, if_neg (by rw [hp]; exact fun he => h he.symm)]
      · simp only [alErase]
        rw [if_neg (by simp [hp]), alGet_cons, alGet_cons, ih]

theorem messages_capture (s : Store) (c : TurnCtx) (e : AgentEvent) :
    (applyAgentIdCapture s c e).messages = s.messages := by
  unfold applyAgentIdCapture
  split <;> first | rfl | (split <;> rfl)

theorem nextId_capture (s : Store) (c : TurnCtx) (e : AgentEvent) :
    (applyAgentIdCapture s c e).nextId = s.nextId := by
  unfold applyAgentIdCapture
  split <;> first | rfl | (split <;> rfl)

theorem loadingIds_capture (s : Store) (c : TurnCtx) (e : AgentEvent) :
    (applyAgentIdCapture s c e).loadingIds = s.loadingIds := by
  unfold applyAgentIdCapture
  split <;> first | rfl | (split <;> rfl)

theorem getMessages_eq_of_messages_eq (s1 s2 : Store) (sid : String)
    (h : s2.messages = s1.messages) : getMessages s2 sid = getMessages s1 sid := by
  simp [getMessages, h]

theorem getMessages_capture (s : Store) (c : TurnCtx) (e : AgentEvent) (sid : String) :
    getMessages (applyAgentIdCapture s c e) sid = getMessages s sid :=
  getMessages_eq_of_messages_eq s _ sid (messages_capture s c e)

theorem getMessages_tick (s : Store) (sid : String) :
    getMessages (tick s) sid = getMessages s sid := rfl

theorem getMessages_setSessionLoading (s : Store) (sid sid2 : String) (b : Bool) :
    getMessages (setSessionLoading s sid b) sid2 = getMessages s sid2 := rfl

theorem nextId_updateMessage (s : Store) (sid : String) (mid : Nat) (u : MsgUpdate) :
    (updateMessage s sid mid u).nextId = s.nextId := by
  unfold updateMessage
  split <;> rfl

theorem clock_updateMessage (s : Store) (sid : String) (mid : Nat) (u : MsgUpdate) :
    (updateMessage s sid mid u).clock = s.clock := by
  unfold updateMessage
  split <;> rfl

theorem loadingIds_updateMessage (s : Store) (sid : String) (mid : Nat) (u : MsgUpdate) :
    (updateMessage s sid mid u).loadingIds = s.loadingIds := by
  unfold updateMessage
  split <;> rfl

theorem getMessages_updateMessage_self (s : Store) (sid : String) (mid : Nat) (u : MsgUpdate) :
    getMessages (updateMessage s sid mid u) sid = updateFirst (getMessages s sid) mid u := by
  unfold updateMessage
  split
  · simp [getMessages, alGet_alSet_self]
  · rename_i hnone
    rw [updateFirst_of_getMsg_none _ _ _ (by simpa [getMsg] using hnone)]

theorem getMessages_updateMessage_ne (s : Store) (sid sid2 : String) (mid : Nat)
    (u : MsgUpdate) (h : sid2 ≠ sid) :
    getMessages (updateMessage s sid mid u) sid2 = getMessages s sid2 := by
  unfold updateMessage
  split
  · simp [getMessages, alGet_alSet_ne _ _ _ _ h]
  · rfl

theorem getMessages_addMessage_self (s : Store) (sid : String) (m : Msg) :
    getMessages (addMessage s sid m).fst sid =
      getMessages s sid ++ [{ m with id := s.nextId, timestamp := s.clock }] := by
  simp [addMessage, getMessages, alGet_alSet_self]

theorem getMessages_addMessage_ne (s : Store) (sid sid2 : String) (m : Msg)
    (h : sid2 ≠ sid) :
    getMessages (addMessage s sid m).fst sid2 = getMessages s sid2 := by
  simp [addMessage, getMessages, alGet_alSet_ne _ _ _ _ h]

theorem addMessage_snd (s : Store) (sid : String) (m : Msg) :
    (addMessage s sid m).snd = s.nextId := rfl

theorem addMessage_fst_nextId (s : Store) (sid : String) (m : Msg) :
    (addMessage s sid m).fst.nextId = s.nextId + 1 := rfl

theorem addMessage_fst_clock (s : Store) (sid : String) (m : Msg) :
    (addMessage s sid m).fst.clock = s.clock := rfl

theorem addMessage_fst_loadingIds (s : Store) (sid : String) (m : Msg) :
    (addMessage s sid m).fst.loadingIds = s.loadingIds := rfl

theorem listWf_mono (l : List Msg) (n n2 : Nat) (h : n ≤ n2) (hw : listWf l n) :
    listWf l n2 :=
  ⟨hw.1, fun i hi => lt_of_lt_of_le (hw.2 i hi) h⟩

theorem storeWf_of_same (s1 s2 : Store) (h1 : s2.messages = s1.messages)
    (h2 : s2.nextId = s1.nextId) (h : StoreWf s1) : StoreWf s2 := by
  intro sid
  rw [show getMessages s2 sid = getMessages s1 sid from
    getMessages_eq_of_messages_eq s1 s2 sid h1, h2]
  exact h sid

theorem storeWf_tick (s : Store) (h : StoreWf s) : StoreWf (tick s) :=
  storeWf_of_same s _ rfl rfl h

theorem storeWf_capture (s : Store) (c : TurnCtx) (e : AgentEvent) (h : StoreWf s) :
    StoreWf (applyAgentIdCapture s c e) :=
  storeWf_of_same s _ (messages_capture s c e) (nextId_capture s c e) h

theorem storeWf_setSessionLoading (s : Store) (sid : String) (b : Bool) (h : StoreWf s) :
    StoreWf (setSessionLoading s sid b) :=
  storeWf_of_same s _ rfl rfl h

theorem storeWf_updateMessage (s : Store) (sid : String) (mid : Nat) (u : MsgUpdate)
    (h : StoreWf s) : StoreWf (updateMessage s sid mid u) := by
  intro sid2
  rw [nextId_updateMessage]
  by_cases hs : sid2 = sid
  · subst hs
    rw [getMessages_updateMessage_self]
    exact ⟨by rw [idsOf_updateFirst]; exact (h sid2).1,
           by rw [idsOf_updateFirst]; exact (h sid2).2⟩
  · rw [getMessages_updateMessage_ne _ _ _ _ _ hs]
    exact h sid2

theorem storeWf_addMessage (s : Store) (sid : String) (m : Msg) (h : StoreWf s) :
    StoreWf (addMessage s sid m).fst := by
  intro sid2
  rw [addMessage_fst_nextId]
  by_cases hs : sid2 = sid
  · subst hs
    rw [getMessages_addMessage_self]
    have hids : idsOf (getMessages s sid2 ++ [{ m with id := s.nextId, timestamp := s.clock }]) =
        idsOf (getMessages s sid2) ++ [s.nextId] := by
      simp [idsOf]
    constructor
    · rw [hids, List.nodup_append]
      refine ⟨(h sid2).1, List.nodup_singleton _, ?_⟩
      intro i hi hi2
      simp only [List.mem_singleton] at hi2
      exact absurd ((h sid2).2 i hi) (by rw [hi2]; exact lt_irrefl _)
    · intro i hi
      rw [hids] at hi
      rcases List.mem_append.mp hi with hold | hnew
      · exact Nat.lt_succ_of_lt ((h sid2).2 i hold)
      · simp only [List.mem_singleton] at hnew
        rw [hnew]; exact Nat.lt_succ_self _
  · rw [getMessages_addMessage_ne _ _ _ _ hs]
    exact listWf_mono _ _ _ (Nat.le_succ _) (h sid2)

theorem storeWf_finalizeActiveTask (s : Store) (c : TurnCtx) (h : StoreWf s) :
    StoreWf (finalizeActiveTask s c).fst := by
  unfold finalizeActiveTask
  cases c.activeTask with
  | none => exact h
  | some act => exact storeWf_updateMessage _ _ _ _ h

theorem storeWf_fallbackAssign (s : Store) (c : TurnCtx) (e : AgentEvent) (h : StoreWf s) :
    StoreWf (fallbackAssign s c e).fst := by
  unfold fallbackAssign
  split
  · exact storeWf_updateMessage _ _ _ _ h
  · exact h

theorem storeWf_stepEvent (s : Store) (c : TurnCtx) (e : AgentEvent) (h : StoreWf s) :
    StoreWf (stepEvent s c e).fst := by
  have hbase : StoreWf (applyAgentIdCapture (tick s) c e) :=
    storeWf_capture _ c e (storeWf_tick s h)
  unfold stepEvent
  split
  · exact storeWf_addMessage _ _ _ (storeWf_finalizeActiveTask _ _ hbase)
  · split
    · unfold toolCallBranch
      cases c.activeTask with
      | none => exact storeWf_addMessage _ _ _ hbase
      | some act => exact storeWf_addMessage _ _ _ (storeWf_updateMessage _ _ _ _ hbase)
    · split
      · unfold toolResultBranch
        split
        · split
          · exact storeWf_updateMessage _ _ _ _ hbase
          · exact storeWf_fallbackAssign _ _ _ hbase
        · exact storeWf_fallbackAssign _ _ _ hbase
      · split
        · exact storeWf_updateMessage _ _ _ _ (storeWf_finalizeActiveTask _ _ hbase)
        · split
          · exact storeWf_updateMessage _ _ _ _ (storeWf_finalizeActiveTask _ _ hbase)
          · exact hbase

theorem fallbackAssign_snd (s : Store) (c : TurnCtx) (e : AgentEvent) :
    (fallbackAssign s c e).snd = c := by
  unfold fallbackAssign
  split <;> rfl

theorem finalizeActiveTask_snd (s : Store) (c : TurnCtx) :
    (finalizeActiveTask s c).snd = { c with activeTask := none } := by
  unfold finalizeActiveTask
  cases h : c.activeTask with
  | some act => rfl
  | none =>
      show c = _
      rw [← h]

theorem stepEvent_sessionId (s : Store) (c : TurnCtx) (e : AgentEvent) :
    (stepEvent s c e).snd.sessionId = c.sessionId := by
  unfold stepEvent taskOpenBranch toolCallBranch toolResultBranch assistantBranch resultBranch
  dsimp only
  split
  · rfl
  · split
    · split <;> rfl
    · split
      · split
        · split
          · rfl
          · rw [fallbackAssign_snd]
        · rw [fallbackAssign_snd]
      · split
        · rw [finalizeActiveTask_snd]
        · split
          · rw [finalizeActiveTask_snd]
          · rfl

theorem stepEvent_assistantMessageId (s : Store) (c : TurnCtx) (e : AgentEvent) :
    (stepEvent s c e).snd.assistantMessageId = c.assistantMessageId := by
  unfold stepEvent taskOpenBranch toolCallBranch toolResultBranch assistantBranch resultBranch
  dsimp only
  split
  · rfl
  · split
    · split <;> rfl
    · split
      · split
        · split
          · rfl
          · rw [fallbackAssign_snd]
        · rw [fallbackAssign_snd]
      · split
        · rw [finalizeActiveTask_snd]
        · split
          · rw [finalizeActiveTask_snd]
          · rfl

theorem getMsg_updateMessage_self (s : Store) (sid : String) (mid : Nat) (u : MsgUpdate)
    (m : Msg) (h : getMsg (getMessages s sid) mid = some m) :
    getMsg (getMessages (updateMessage s sid mid u) sid) mid = some (applyUpd m u) := by
  rw [getMessages_updateMessage_self]
  exact getMsg_updateFirst_self _ _ _ _ h

theorem getMsg_updateMessage_ne (s : Store) (sid : String) (mid mid2 : Nat) (u : MsgUpdate)
    (h : mid2 ≠ mid) :
    getMsg (getMessages (updateMessage s sid mid u) sid) mid2 =
      getMsg (getMessages s sid) mid2 := by
  rw [getMessages_updateMessage_self]
  exact getMsg_updateFirst_ne _ _ _ _ h

theorem getMsg_addMessage_old (s : Store) (sid : String) (m2 : Msg) (mid : Nat) (m : Msg)
    (h : getMsg (getMessages s sid) mid = some m) :
    getMsg (getMessages (addMessage s sid m2).fst sid) mid = some m := by
  rw [getMessages_addMessage_self]
  exact getMsg_append_of_some _ _ _ _ h

theorem getMsg_of_mem_nodup (l : List Msg) (m : Msg) (hnd : (idsOf l).Nodup)
    (hm : m ∈ l) : getMsg l m.id = some m := by
  induction l with
  | nil => cases hm
  | cons a rest ih =>
      simp only [idsOf, List.map_cons, List.nodup_cons] at hnd
      rw [getMsg_cons]
      rcases List.mem_cons.mp hm with rfl | hm2
      · rw [if_pos rfl]
      · by_cases ha : a.id = m.id
        · exact absurd (ha ▸ List.mem_map_of_mem (fun x => x.id) hm2) hnd.1
        · rw [if_neg ha]
          exact ih hnd.2 hm2

theorem getMsg_id_lt (s : Store) (sid : String) (mid : Nat) (m : Msg)
    (hWf : StoreWf s) (h : getMsg (getMessages s sid) mid = some m) :
    mid < s.nextId := by
  obtain ⟨hm, hid⟩ := getMsg_eq_some _ _ _ h
  exact (hWf sid).2 mid (hid ▸ List.mem_map_of_mem (fun x => x.id) hm)

theorem reverse_find?_eq_some (l : List α) (p : α → Bool) (a : α)
    (h : l.reverse.find? p = some a) :
    ∃ l1 l2, l = l1 ++ a :: l2 ∧ p a = true ∧ ∀ x ∈ l2, p x = false := by
  induction l using List.reverseRecOn with
  | nil => simp at h
  | append_singleton l2 b ih =>
      rw [List.reverse_append, List.reverse_singleton, List.singleton_append,
        List.find?_cons] at h
      cases hp : p b with
      | true =>
          rw [hp] at h
          injection h with h
          subst h
          exact ⟨l2, [], rfl, hp, by intro x hx; cases hx⟩
      | false =>
          rw [hp] at h
          obtain ⟨l1, l3, rfl, hpa, hall⟩ := ih h
          refine ⟨l1, l3 ++ [b], by simp, hpa, ?_⟩
          intro x hx
          rcases List.mem_append.mp hx with hx | hx
          · exact hall x hx
          · simp only [List.mem_singleton] at hx
            rw [hx]; exact hp

theorem reverse_find?_eq_none (l : List α) (p : α → Bool)
    (h : l.reverse.find? p = none) : ∀ x ∈ l, p x = false := by
  intro x hx
  have := List.find?_eq_none.mp h x (List.mem_reverse.mpr hx)
  simpa using this

theorem getMessages_stepBase (s : Store) (c : TurnCtx) (e : AgentEvent) (sid : String) :
    getMessages (applyAgentIdCapture (tick s) c e) sid = getMessages s sid := by
  rw [getMessages_capture, getMessages_tick]

theorem storeWf_stepBase (s : Store) (c : TurnCtx) (e : AgentEvent) (h : StoreWf s) :
    StoreWf (applyAgentIdCapture (tick s) c e) :=
  storeWf_capture _ c e (storeWf_tick s h)

theorem exists_field_update (f : Msg → β) (s : Store) (sid2 : String) (mid2 : Nat)
    (u : MsgUpdate) (sid : String) (mid : Nat) (v : β)
    (hf : ∀ m, f (applyUpd m u) = f m)
    (h : ∃ m, getMsg (getMessages s sid) mid = some m ∧ f m = v) :
    ∃ m2, getMsg (getMessages (updateMessage s sid2 mid2 u) sid) mid = some m2 ∧
      f m2 = v := by
  obtain ⟨m, hm, hv⟩ := h
  by_cases hs : sid = sid2
  · subst hs
    by_cases hmid : mid = mid2
    · subst hmid
      exact ⟨applyUpd m u, getMsg_updateMessage_self _ _ _ _ _ hm, by rw [hf m, hv]⟩
    · exact ⟨m, by rw [getMsg_updateMessage_ne _ _ _ _ _ hmid]; exact hm, hv⟩
  · exact ⟨m, by rw [getMessages_updateMessage_ne _ _ _ _ _ hs]; exact hm, hv⟩

theorem exists_field_add (f : Msg → β) (s : Store) (sid2 : String) (madd : Msg)
    (sid : String) (mid : Nat) (v : β)
    (h : ∃ m, getMsg (getMessages s sid) mid = some m ∧ f m = v) :
    ∃ m2, getMsg (getMessages (addMessage s sid2 madd).fst sid) mid = some m2 ∧
      f m2 = v := by
  obtain ⟨m, hm, hv⟩ := h
  by_cases hs : sid = sid2
  · subst hs
    exact ⟨m, getMsg_addMessage_old _ _ _ _ _ hm, hv⟩
  · exact ⟨m, by rw [getMessages_addMessage_ne _ _ _ _ hs]; exact hm, hv⟩

theorem exists_field_finalize (f : Msg → β) (s : Store) (c : TurnCtx)
    (sid : String) (mid : Nat) (v : β)
    (hf : ∀ (m : Msg) (u : MsgUpdate), u.toolResult = none → u.content = none →
      u.isStreaming = none → u.endTime = none → f (applyUpd m u) = f m)
    (h : ∃ m, getMsg (getMessages s sid) mid = some m ∧ f m = v) :
    ∃ m2, getMsg (getMessages (finalizeActiveTask s c).fst sid) mid = some m2 ∧
      f m2 = v := by
  unfold finalizeActiveTask
  cases c.activeTask with
  | none => exact h
  | some act =>
      exact exists_field_update f _ _ _ _ _ _ _ (fun m => hf m _ rfl rfl rfl rfl) h

theorem exists_toolResult_fallback (s : Store) (c : TurnCtx) (e : AgentEvent)
    (hWf : StoreWf s) (sid : String) (mid : Nat) (r : ToolResultPayload)
    (ht : r.isFalsy = false)
    (h : ∃ m, getMsg (getMessages s sid) mid = some m ∧ m.toolResult = some r) :
    ∃ m2, getMsg (getMessages (fallbackAssign s c e).fst sid) mid = some m2 ∧
      m2.toolResult = some r := by
  obtain ⟨m, hm, hr⟩ := h
  unfold fallbackAssign
  split
  · rename_i mt hfind
    by_cases hs : sid = c.sessionId
    · subst hs
      by_cases hmid : mid = mt.id
      · exfalso
        have hmem : mt ∈ getMessages s c.sessionId :=
          List.mem_reverse.mp (List.mem_of_find?_eq_some hfind)
        have hp : unresolvedTool mt = true := List.find?_some hfind
        have hget : getMsg (getMessages s c.sessionId) mt.id = some mt :=
          getMsg_of_mem_nodup _ _ (hWf c.sessionId).1 hmem
        rw [hmid, hget] at hm
        obtain rfl : mt = m := by injection hm
        have hfal : resultFalsy mt.toolResult = true :=
          ((Bool.and_eq_true _ _).mp hp).2
        rw [hr] at hfal
        simp only [resultFalsy] at hfal
        rw [ht] at hfal
        exact Bool.false_ne_true hfal
      · exact ⟨m, by rw [getMsg_updateMessage_ne _ _ _ _ _ hmid]; exact hm, hr⟩
    · exact ⟨m, by rw [getMessages_updateMessage_ne _ _ _ _ _ hs]; exact hm, hr⟩
  · exact ⟨m, hm, hr⟩

theorem toolResult_stable_step (s : Store) (c : TurnCtx) (e : AgentEvent)
    (hWf : StoreWf s) (sid : String) (mid : Nat) (m : Msg) (r : ToolResultPayload)
    (hm : getMsg (getMessages s sid) mid = some m)
    (hr : m.toolResult = some r) (ht : r.isFalsy = false) :
    ∃ m2, getMsg (getMessages (stepEvent s c e).fst sid) mid = some m2 ∧
      m2.toolResult = some r := by
  have hmb : getMsg (getMessages (applyAgentIdCapture (tick s) c e) sid) mid = some m := by
    rw [getMessages_stepBase]; exact hm
  have hWfb : StoreWf (applyAgentIdCapture (tick s) c e) := storeWf_stepBase s c e hWf
  have hbase : ∃ m1, getMsg (getMessages (applyAgentIdCapture (tick s) c e) sid) mid
      = some m1 ∧ m1.toolResult = some r := ⟨m, hmb, hr⟩
  unfold stepEvent
  dsimp only
  split
  · unfold taskOpenBranch
    dsimp only
    apply exists_field_add
    apply exists_field_finalize _ _ _ _ _ _ (fun m3 u hu _ _ _ => by
      rw [applyUpd_toolResult, hu, updField_none])
    exact hbase
  · split
    · unfold toolCallBranch
      dsimp only
      cases c.activeTask with
      | none => exact exists_field_add _ _ _ _ _ _ _ hbase
      | some act =>
          apply exists_field_add
          apply exists_field_update _ _ _ _ _ _ _ _ (fun m3 => by
            rw [applyUpd_toolResult]; rfl)
          exact hbase
    · split
      · unfold toolResultBranch
        split
        · split
          · apply exists_field_update _ _ _ _ _ _ _ _ (fun m3 => by
              rw [applyUpd_toolResult]; rfl)
            exact hbase
          · exact exists_toolResult_fallback _ c e hWfb sid mid r ht hbase
        · exact exists_toolResult_fallback _ c e hWfb sid mid r ht hbase
      · split
        · unfold assistantBranch
          dsimp only
          apply exists_field_update _ _ _ _ _ _ _ _ (fun m3 => by
            rw [applyUpd_toolResult]; rfl)
          apply exists_field_finalize _ _ _ _ _ _ (fun m3 u hu _ _ _ => by
            rw [applyUpd_toolResult, hu, updField_none])
          exact hbase
        · split
          · unfold resultBranch
            dsimp only
            apply exists_field_update _ _ _ _ _ _ _ _ (fun m3 => by
              rw [applyUpd_toolResult]; rfl)
            apply exists_field_finalize _ _ _ _ _ _ (fun m3 u hu _ _ _ => by
              rw [applyUpd_toolResult, hu, updField_none])
            exact hbase
          · exact hbase

theorem mem_updateMessage (s : Store) (sid : String) (mid : Nat) (u : MsgUpdate)
    (m2 : Msg) (hnd : (idsOf (getMessages s sid)).Nodup)
    (hm2 : m2 ∈ getMessages (updateMessage s sid mid u) sid) :
    ∃ m1, m1 ∈ getMessages s sid ∧
      m2 = (if m1.id = mid then applyUpd m1 u else m1) := by
  rw [getMessages_updateMessage_self, updateFirst_eq_map _ _ _ hnd] at hm2
  obtain ⟨m1, hm1, he⟩ := List.mem_map.mp hm2
  exact ⟨m1, hm1, he.symm⟩

theorem mem_addMessage (s : Store) (sid : String) (madd : Msg) (m2 : Msg)
    (hm2 : m2 ∈ getMessages (addMessage s sid madd).fst sid) :
    m2 ∈ getMessages s sid ∨ m2 = { madd with id := s.nextId, timestamp := s.clock } := by
  rw [getMessages_addMessage_self] at hm2
  rcases List.mem_append.mp hm2 with h | h
  · exact Or.inl h
  · simp only [List.mem_singleton] at h
    exact Or.inr h

theorem taskLoadingInv_stepBase (s : Store) (c : TurnCtx) (e : AgentEvent)
    (h : taskLoadingInv s c) : taskLoadingInv (applyAgentIdCapture (tick s) c e) c := by
  intro m hm
  rw [getMessages_stepBase] at hm
  exact h m hm

theorem no_loading_after_close (s : Store) (c : TurnCtx) (act : ActiveTask)
    (u : MsgUpdate) (hWf : StoreWf s) (hInv : taskLoadingInv s c)
    (hact : c.activeTask = some act) (hu : u.isTaskLoading = some false)
    (m : Msg) (hm : m ∈ getMessages (updateMessage s c.sessionId act.messageId u) c.sessionId) :
    m.isTaskLoading ≠ some true := by
  obtain ⟨m1, hm1, he⟩ := mem_updateMessage _ _ _ _ _ (hWf c.sessionId).1 hm
  intro hload
  by_cases h1 : m1.id = act.messageId
  · rw [if_pos h1] at he
    subst he
    rw [applyUpd_isTaskLoading, hu, updField_some] at hload
    exact Bool.false_ne_true (by injection hload)
  · rw [if_neg h1] at he
    subst he
    obtain ⟨act2, ha2, hid⟩ := hInv m hm1 hload
    rw [hact] at ha2
    injection ha2 with ha2
    rw [← ha2] at hid
    exact h1 hid.symm

theorem no_loading_after_finalize (s : Store) (c : TurnCtx)
    (hWf : StoreWf s) (hInv : taskLoadingInv s c)
    (m : Msg) (hm : m ∈ getMessages (finalizeActiveTask s c).fst c.sessionId) :
    m.isTaskLoading ≠ some true := by
  unfold finalizeActiveTask at hm
  cases hact : c.activeTask with
  | none =>
      rw [hact] at hm
      dsimp only at hm
      intro hload
      obtain ⟨act, ha, _⟩ := hInv m hm hload
      rw [hact] at ha
      cases ha
  | some act =>
      rw [hact] at hm
      dsimp only at hm
      exact no_loading_after_close s c act _ hWf hInv hact rfl m hm

theorem taskLoadingInv_taskOpen (s : Store) (c : TurnCtx) (e : AgentEvent)
    (hWf : StoreWf s) (hInv : taskLoadingInv s c) :
    taskLoadingInv (taskOpenBranch s c e).fst (taskOpenBranch s c e).snd := by
  intro m hm hload
  unfold taskOpenBranch at hm ⊢
  dsimp only at hm ⊢
  rcases mem_addMessage _ _ _ _ hm with hold | hnew
  · exact absurd hload (no_loading_after_finalize s c hWf hInv m hold)
  · refine ⟨_, rfl, ?_⟩
    rw [addMessage_snd, hnew]

theorem taskLoadingInv_toolCall (s : Store) (c : TurnCtx) (e : AgentEvent)
    (hWf : StoreWf s) (hInv : taskLoadingInv s c) :
    taskLoadingInv (toolCallBranch s c e).fst (toolCallBranch s c e).snd := by
  intro m hm hload
  unfold toolCallBranch at hm ⊢
  cases hact : c.activeTask with
  | none =>
      rw [hact] at hm
      dsimp only at hm ⊢
      rcases mem_addMessage _ _ _ _ hm with hold | hnew
      · obtain ⟨act, ha, _⟩ := hInv m hold hload
        rw [hact] at ha
        cases ha
      · rw [hnew] at hload
        exact absurd hload (by simp)
  | some act =>
      rw [hact] at hm
      dsimp only at hm ⊢
      rcases mem_addMessage _ _ _ _ hm with hold | hnew
      · obtain ⟨m1, hm1, he⟩ := mem_updateMessage _ _ _ _ _ (hWf c.sessionId).1 hold
        have hload1 : m1.isTaskLoading = some true := by
          by_cases h1 : m1.id = act.messageId
          · rw [if_pos h1] at he
            subst he
            rw [applyUpd_isTaskLoading] at hload
            simpa [updField] using hload
          · rw [if_neg h1] at he
            subst he
            exact hload
        obtain ⟨act2, ha2, hid⟩ := hInv m1 hm1 hload1
        rw [hact] at ha2
        injection ha2 with ha2
        refine ⟨_, rfl, ?_⟩
        have hmid : m.id = m1.id := by
          by_cases h1 : m1.id = act.messageId
          · rw [if_pos h1] at he
            subst he
            exact applyUpd_id m1 _
          · rw [if_neg h1] at he
            subst he
            rfl
        rw [hmid]
        rw [← ha2] at hid
        exact hid
      · rw [hnew] at hload
        exact absurd hload (by simp)

theorem taskLoadingInv_fallback (s : Store) (c : TurnCtx) (e : AgentEvent)
    (hWf : StoreWf s) (hInv : taskLoadingInv s c) :
    taskLoadingInv (fallbackAssign s c e).fst (fallbackAssign s c e).snd := by
  intro m hm hload
  rw [fallbackAssign_snd] at hm ⊢
  unfold fallbackAssign at hm
  split at hm
  · rename_i mt heq
    dsimp only at hm
    obtain ⟨m1, hm1, he⟩ := mem_updateMessage _ _ _ _ _ (hWf c.sessionId).1 hm
    have hload1 : m1.isTaskLoading = some true := by
      by_cases h1 : m1.id = mt.id
      · rw [if_pos h1] at he
        subst he
        rw [applyUpd_isTaskLoading] at hload
        simpa [updField] using hload
      · rw [if_neg h1] at he
        subst he
        exact hload
    obtain ⟨act2, ha2, hid⟩ := hInv m1 hm1 hload1
    refine ⟨act2, ha2, ?_⟩
    by_cases h1 : m1.id = mt.id
    · rw [if_pos h1] at he
      subst he
      rw [applyUpd_id]
      exact hid
    · rw [if_neg h1] at he
      subst he
      exact hid
  · exact hInv m hm hload

theorem taskLoadingInv_toolResult (s : Store) (c : TurnCtx) (e : AgentEvent)
    (hWf : StoreWf s) (hInv : taskLoadingInv s c) :
    taskLoadingInv (toolResultBranch s c e).fst (toolResultBranch s c e).snd := by
  unfold toolResultBranch
  cases hact : c.activeTask with
  | none =>
      cases htid : e.toolId with
      | none => exact taskLoadingInv_fallback s c e hWf hInv
      | some tid => exact taskLoadingInv_fallback s c e hWf hInv
  | some act =>
      cases htid : e.toolId with
      | none => exact taskLoadingInv_fallback s c e hWf hInv
      | some tid =>
          dsimp only
          by_cases hcond : ¬tid.isEmpty ∧ act.toolId = some tid
          · rw [if_pos hcond]
            intro m hm hload
            dsimp only at hm ⊢
            exact absurd hload (no_loading_after_close s c act _ hWf hInv hact rfl m hm)
          · rw [if_neg hcond]
            exact taskLoadingInv_fallback s c e hWf hInv

theorem taskLoadingInv_assistant (s : Store) (c : TurnCtx) (e : AgentEvent)
    (hWf : StoreWf s) (hInv : taskLoadingInv s c) :
    taskLoadingInv (assistantBranch s c e).fst (assistantBranch s c e).snd := by
  intro m hm hload
  unfold assistantBranch at hm ⊢
  dsimp only at hm ⊢
  rw [finalizeActiveTask_snd] at hm ⊢
  dsimp only at hm ⊢
  obtain ⟨m1, hm1, he⟩ := mem_updateMessage _ _ _ _ _
    ((storeWf_finalizeActiveTask s c hWf) c.sessionId).1 hm
  have hload1 : m1.isTaskLoading = some true := by
    by_cases h1 : m1.id = c.assistantMessageId
    · rw [if_pos h1] at he
      subst he
      rw [applyUpd_isTaskLoading] at hload
      simpa [updField] using hload
    · rw [if_neg h1] at he
      subst he
      exact hload
  exact absurd hload1 (no_loading_after_finalize s c hWf hInv m1 hm1)

theorem taskLoadingInv_result (s : Store) (c : TurnCtx)
    (hWf : StoreWf s) (hInv : taskLoadingInv s c) :
    taskLoadingInv (resultBranch s c).fst (resultBranch s c).snd := by
  intro m hm hload
  unfold resultBranch at hm ⊢
  dsimp only at hm ⊢
  rw [finalizeActiveTask_snd] at hm ⊢
  dsimp only at hm ⊢
  obtain ⟨m1, hm1, he⟩ := mem_updateMessage _ _ _ _ _
    ((storeWf_finalizeActiveTask s c hWf) c.sessionId).1 hm
  have hload1 : m1.isTaskLoading = some true := by
    by_cases h1 : m1.id = c.assistantMessageId
    · rw [if_pos h1] at he
      subst he
      rw [applyUpd_isTaskLoading] at hload
      simpa [updField] using hload
    · rw [if_neg h1] at he
      subst he
      exact hload
  exact absurd hload1 (no_loading_after_finalize s c hWf hInv m1 hm1)

theorem taskLoadingInv_step (s : Store) (c : TurnCtx) (e : AgentEvent)
    (hWf : StoreWf s) (hInv : taskLoadingInv s c) :
    taskLoadingInv (stepEvent s c e).fst (stepEvent s c e).snd := by
  have hWfb := storeWf_stepBase s c e hWf
  have hInvb := taskLoadingInv_stepBase s c e hInv
  unfold stepEvent
  dsimp only
  split
  · exact taskLoadingInv_taskOpen _ c e hWfb hInvb
  · split
    · exact taskLoadingInv_toolCall _ c e hWfb hInvb
    · split
      · exact taskLoadingInv_toolResult _ c e hWfb hInvb
      · split
        · exact taskLoadingInv_assistant _ c e hWfb hInvb
        · split
          · exact taskLoadingInv_result _ c hWfb hInvb
          · exact hInvb

theorem nextId_finalizeActiveTask (s : Store) (c : TurnCtx) :
    (finalizeActiveTask s c).fst.nextId = s.nextId := by
  unfold finalizeActiveTask
  cases c.activeTask with
  | none => rfl
  | some act => exact nextId_updateMessage _ _ _ _

theorem getMsg_finalize_other (s : Store) (c : TurnCtx) (mid : Nat)
    (hne : ∀ act, c.activeTask = some act → act.messageId ≠ mid) :
    getMsg (getMessages (finalizeActiveTask s c).fst c.sessionId) mid =
      getMsg (getMessages s c.sessionId) mid := by
  unfold finalizeActiveTask
  cases hact : c.activeTask with
  | none => rfl
  | some act =>
      dsimp only
      exact getMsg_updateMessage_ne _ _ _ _ _ (fun he => hne act hact he.symm)

theorem placeholder_taskOpen (s : Store) (c : TurnCtx) (e : AgentEvent)
    (hWf : StoreWf s) (hP : placeholderInv s c) :
    placeholderInv (taskOpenBranch s c e).fst (taskOpenBranch s c e).snd ∧
    (taskOpenBranch s c e).snd.fullContent = c.fullContent := by
  obtain ⟨⟨m0, hm0, hrole, hcont⟩, hne⟩ := hP
  have h1 : getMsg (getMessages (finalizeActiveTask s c).fst c.sessionId)
      c.assistantMessageId = some m0 := by
    rw [getMsg_finalize_other s c _ (fun act hact he => hne act hact he)]
    exact hm0
  refine ⟨⟨⟨m0, ?_, hrole, hcont⟩, ?_⟩, ?_⟩
  · unfold taskOpenBranch
    dsimp only
    exact getMsg_addMessage_old _ _ _ _ _ h1
  · unfold taskOpenBranch
    dsimp only
    intro act2 ha2
    injection ha2 with ha2
    have hid : act2.messageId = s.nextId := by
      rw [← ha2]
      dsimp only
      rw [addMessage_snd, nextId_finalizeActiveTask]
    intro he
    have hlt : c.assistantMessageId < s.nextId := getMsg_id_lt s _ _ _ hWf hm0
    rw [← he, hid] at hlt
    exact lt_irrefl _ hlt
  · rfl

theorem placeholder_toolCall (s : Store) (c : TurnCtx) (e : AgentEvent)
    (hWf : StoreWf s) (hP : placeholderInv s c) :
    placeholderInv (toolCallBranch s c e).fst (toolCallBranch s c e).snd ∧
    (toolCallBranch s c e).snd.fullContent = c.fullContent := by
  obtain ⟨⟨m0, hm0, hrole, hcont⟩, hne⟩ := hP
  unfold toolCallBranch
  cases hact : c.activeTask with
  | none =>
      dsimp only
      exact ⟨⟨⟨m0, getMsg_addMessage_old _ _ _ _ _ hm0, hrole, hcont⟩,
        fun act2 ha2 => hne act2 (hact ▸ ha2)⟩, rfl⟩
  | some act =>
      dsimp only
      refine ⟨⟨⟨m0, ?_, hrole, hcont⟩, ?_⟩, rfl⟩
      · apply getMsg_addMessage_old
        rw [getMsg_updateMessage_ne _ _ _ _ _ (fun he => hne act hact he.symm)]
        exact hm0
      · intro act2 ha2
        injection ha2 with ha2
        rw [← ha2]
        exact hne act hact

theorem placeholder_fallback (s : Store) (c : TurnCtx) (e : AgentEvent)
    (hWf : StoreWf s) (hP : placeholderInv s c) :
    placeholderInv (fallbackAssign s c e).fst (fallbackAssign s c e).snd ∧
    (fallbackAssign s c e).snd.fullContent = c.fullContent := by
  obtain ⟨⟨m0, hm0, hrole, hcont⟩, hne⟩ := hP
  unfold fallbackAssign
  split
  · rename_i mt heq
    have hmt : mt.id ≠ c.assistantMessageId := by
      intro he
      have hmem : mt ∈ getMessages s c.sessionId :=
        List.mem_reverse.mp (List.mem_of_find?_eq_some heq)
      have hget : getMsg (getMessages s c.sessionId) mt.id = some mt :=
        getMsg_of_mem_nodup _ _ (hWf c.sessionId).1 hmem
      rw [he, hm0] at hget
      obtain rfl : mt = m0 := by injection hget.symm
      have hp : unresolvedTool mt = true := List.find?_some heq
      have : mt.role = "tool" := by
        have := ((Bool.and_eq_true _ _).mp hp).1
        simpa using this
      rw [hrole] at this
      exact absurd this (by decide)
    refine ⟨⟨⟨m0, ?_, hrole, hcont⟩, hne⟩, rfl⟩
    rw [getMsg_updateMessage_ne _ _ _ _ _ (fun he => hmt he.symm)]
    exact hm0
  · exact ⟨⟨⟨m0, hm0, hrole, hcont⟩, hne⟩, rfl⟩

theorem placeholder_toolResult (s : Store) (c : TurnCtx) (e : AgentEvent)
    (hWf : StoreWf s) (hP : placeholderInv s c) :
    placeholderInv (toolResultBranch s c e).fst (toolResultBranch s c e).snd ∧
    (toolResultBranch s c e).snd.fullContent = c.fullContent := by
  unfold toolResultBranch
  cases hact : c.activeTask with
  | none =>
      cases htid : e.toolId with
      | none => exact placeholder_fallback s c e hWf hP
      | some tid => exact placeholder_fallback s c e hWf hP
  | some act =>
      cases htid : e.toolId with
      | none => exact placeholder_fallback s c e hWf hP
      | some tid =>
          dsimp only
          by_cases hcond : ¬tid.isEmpty ∧ act.toolId = some tid
          · rw [if_pos hcond]
            obtain ⟨⟨m0, hm0, hrole, hcont⟩, hne⟩ := hP
            refine ⟨⟨⟨m0, ?_, hrole, hcont⟩, ?_⟩, rfl⟩
            · rw [getMsg_updateMessage_ne _ _ _ _ _ (fun he => hne act hact he.symm)]
              exact hm0
            · intro act2 ha2
              cases ha2
          · rw [if_neg hcond]
            exact placeholder_fallback s c e hWf hP

theorem placeholder_assistant (s : Store) (c : TurnCtx) (e : AgentEvent)
    (hWf : StoreWf s) (hP : placeholderInv s c) :
    placeholderInv (assistantBranch s c e).fst (assistantBranch s c e).snd ∧
    (assistantBranch s c e).snd.fullContent = c.fullContent ++
      (match e.content with
        | some cv => extractAssistantText cv
        | none => "") := by
  obtain ⟨⟨m0, hm0, hrole, hcont⟩, hne⟩ := hP
  have h1 : getMsg (getMessages (finalizeActiveTask s c).fst c.sessionId)
      c.assistantMessageId = some m0 := by
    rw [getMsg_finalize_other s c _ (fun act hact he => hne act hact he)]
    exact hm0
  unfold assistantBranch
  dsimp only
  rw [finalizeActiveTask_snd]
  dsimp only
  constructor
  · constructor
    · refine ⟨applyUpd m0 _, getMsg_updateMessage_self _ _ _ _ _ h1, ?_, ?_⟩
      · rw [applyUpd_role]
        exact hrole
      · rw [applyUpd_content]
    · intro act2 ha2
      cases ha2
  · rfl

theorem placeholder_result (s : Store) (c : TurnCtx)
    (hWf : StoreWf s) (hP : placeholderInv s c) :
    placeholderInv (resultBranch s c).fst (resultBranch s c).snd ∧
    (resultBranch s c).snd.fullContent = c.fullContent := by
  obtain ⟨⟨m0, hm0, hrole, hcont⟩, hne⟩ := hP
  have h1 : getMsg (getMessages (finalizeActiveTask s c).fst c.sessionId)
      c.assistantMessageId = some m0 := by
    rw [getMsg_finalize_other s c _ (fun act hact he => hne act hact he)]
    exact hm0
  unfold resultBranch
  dsimp only
  rw [finalizeActiveTask_snd]
  dsimp only
  refine ⟨⟨⟨applyUpd m0 _, getMsg_updateMessage_self _ _ _ _ _ h1, ?_, ?_⟩, ?_⟩, rfl⟩
  · rw [applyUpd_role]
    exact hrole
  · rw [applyUpd_content]
    exact hcont
  · intro act2 ha2
    cases ha2


theorem deltaText_of_not_assistant (e : AgentEvent) (h : e.type ≠ "assistant") :
    deltaText e = "" := by
  unfold deltaText
  rw [if_neg h]

theorem placeholder_stepBase (s : Store) (c : TurnCtx) (e : AgentEvent)
    (hP : placeholderInv s c) : placeholderInv (applyAgentIdCapture (tick s) c e) c := by
  obtain ⟨⟨m0, hm0, hrole, hcont⟩, hne⟩ := hP
  exact ⟨⟨m0, by rw [getMessages_stepBase]; exact hm0, hrole, hcont⟩, hne⟩

theorem placeholder_step (s : Store) (c : TurnCtx) (e : AgentEvent)
    (hWf : StoreWf s) (hP : placeholderInv s c) :
    placeholderInv (stepEvent s c e).fst (stepEvent s c e).snd ∧
    (stepEvent s c e).snd.fullContent = c.fullContent ++ deltaText e := by
  have hWfb := storeWf_stepBase s c e hWf
  have hPb := placeholder_stepBase s c e hP
  unfold stepEvent
  dsimp only
  split
  · rename_i hcond
    obtain ⟨hinv, hfc⟩ := placeholder_taskOpen _ c e hWfb hPb
    refine ⟨hinv, ?_⟩
    rw [hfc, deltaText_of_not_assistant e (by rw [hcond.1]; decide), String.append_empty]
  · split
    · rename_i hno hcond
      obtain ⟨hinv, hfc⟩ := placeholder_toolCall _ c e hWfb hPb
      exact ⟨hinv, by
        rw [hfc, deltaText_of_not_assistant e (by rw [hcond]; decide), String.append_empty]⟩
    · split
      · rename_i h1 h2 hcond
        obtain ⟨hinv, hfc⟩ := placeholder_toolResult _ c e hWfb hPb
        exact ⟨hinv, by
          rw [hfc, deltaText_of_not_assistant e (by rw [hcond]; decide), String.append_empty]⟩
      · split
        · rename_i h1 h2 h3 hcond
          obtain ⟨hinv, hfc⟩ := placeholder_assistant _ c e hWfb hPb
          refine ⟨hinv, ?_⟩
          rw [hfc]
          congr 1
          unfold deltaText
          rw [if_pos hcond.1]
        · split
          · rename_i h1 h2 h3 h4 hcond
            obtain ⟨hinv, hfc⟩ := placeholder_result _ c hWfb hPb
            exact ⟨hinv, by
              rw [hfc, deltaText_of_not_assistant e (by rw [hcond]; decide),
                String.append_empty]⟩
          · rename_i h1 h2 h3 h4 h5
            refine ⟨hPb, ?_⟩
            have hdz : deltaText e = "" := by
              unfold deltaText
              by_cases ha : e.type = "assistant"
              · rw [if_pos ha]
                have hnt : ¬((e.content.map contentTruthy).getD false = true) :=
                  fun ht => h4 ⟨ha, ht⟩
                cases hc : e.content with
                | none => rfl
                | some cv =>
                    cases cv with
                    | str str1 =>
                        dsimp only [extractAssistantText]
                        rw [hc] at hnt
                        simp only [Option.map_some', Option.getD_some,
                          contentTruthy] at hnt
                        have hie : str1.isEmpty = true := by
                          cases hie2 : str1.isEmpty
                          · rw [hie2] at hnt
                            exact absurd rfl hnt
                          · rfl
                        exact (String.isEmpty_iff str1).mp hie
                    | blocksArr items =>
                        rw [hc] at hnt
                        exact absurd (by simp [contentTruthy]) hnt
              · rw [if_neg ha]
            rw [hdz, String.append_empty]

theorem runEvents_invariants (es : List AgentEvent) (s : Store) (c : TurnCtx)
    (hWf : StoreWf s) (hP : placeholderInv s c) :
    StoreWf (runEvents s c es).fst ∧
    placeholderInv (runEvents s c es).fst (runEvents s c es).snd ∧
    (runEvents s c es).snd.fullContent = c.fullContent ++ concatDeltas es := by
  induction es generalizing s c with
  | nil => exact ⟨hWf, hP, (String.append_empty _).symm⟩
  | cons e es ih =>
      obtain ⟨hinv, hfc⟩ := placeholder_step s c e hWf hP
      have hWf2 := storeWf_stepEvent s c e hWf
      obtain ⟨hW3, hP3, hfc3⟩ := ih (stepEvent s c e).fst (stepEvent s c e).snd hWf2 hinv
      refine ⟨hW3, hP3, ?_⟩
      show (runEvents (stepEvent s c e).fst (stepEvent s c e).snd es).snd.fullContent = _
      rw [hfc3, hfc, String.append_assoc]
      rfl


/-- The source's match condition for attributing a tool-result to the
active task: a truthy event tool id equal to the stored one
(`activeTaskRef.current && toolId && activeTaskRef.current.toolId === toolId`). -/
def taskResultMatches (c : TurnCtx) (e : AgentEvent) : Prop :=
  ∃ act tid, c.activeTask = some act ∧ e.toolId = some tid ∧
    tid ≠ "" ∧ act.toolId = some tid

theorem stepEvent_toolResult_eq (s : Store) (c : TurnCtx) (e : AgentEvent)
    (he : e.type = "tool_result") :
    stepEvent s c e = toolResultBranch (applyAgentIdCapture (tick s) c e) c e := by
  unfold stepEvent
  rw [if_neg (by simp [he]), if_neg (by simp [he]), if_pos he]

theorem toolResultBranch_match (s : Store) (c : TurnCtx) (e : AgentEvent)
    (act : ActiveTask) (tid : String) (hact : c.activeTask = some act)
    (htid : e.toolId = some tid) (hcond : ¬tid.isEmpty ∧ act.toolId = some tid) :
    toolResultBranch s c e =
      (updateMessage s c.sessionId act.messageId
        { isTaskLoading := some false, taskEndTime := some s.clock,
          taskToolCount := some act.toolCount,
          taskResult := some (extractTextFromResult e.toolResult) },
       { c with activeTask := none }) := by
  unfold toolResultBranch
  rw [hact, htid]
  dsimp only
  rw [if_pos hcond]

theorem toolResultBranch_fallback (s : Store) (c : TurnCtx) (e : AgentEvent)
    (hnm : ¬taskResultMatches c e) :
    toolResultBranch s c e = fallbackAssign s c e := by
  unfold toolResultBranch
  cases hact : c.activeTask with
  | none =>
      cases htid : e.toolId with
      | none => rfl
      | some tid => rfl
  | some act =>
      cases htid : e.toolId with
      | none => rfl
      | some tid =>
          dsimp only
          rw [if_neg]
          intro hcond
          refine hnm ⟨act, tid, hact, htid, ?_, hcond.2⟩
          intro h0
          exact hcond.1 (by rw [h0]; rfl)

theorem fallbackAssign_found (s : Store) (c : TurnCtx) (e : AgentEvent) (mt : Msg)
    (hWf : StoreWf s)
    (hfind : (getMessages s c.sessionId).reverse.find? unresolvedTool = some mt) :
    (fallbackAssign s c e).snd = c ∧
    getMsg (getMessages (fallbackAssign s c e).fst c.sessionId) mt.id =
      some (applyUpd mt { toolResult := some e.toolResult }) ∧
    (∀ mid2, mid2 ≠ mt.id →
      getMsg (getMessages (fallbackAssign s c e).fst c.sessionId) mid2 =
        getMsg (getMessages s c.sessionId) mid2) ∧
    (∀ sid2, sid2 ≠ c.sessionId →
      getMessages (fallbackAssign s c e).fst sid2 = getMessages s sid2) := by
  have hmem : mt ∈ getMessages s c.sessionId :=
    List.mem_reverse.mp (List.mem_of_find?_eq_some hfind)
  have hget : getMsg (getMessages s c.sessionId) mt.id = some mt :=
    getMsg_of_mem_nodup _ _ (hWf c.sessionId).1 hmem
  unfold fallbackAssign
  rw [hfind]
  dsimp only
  refine ⟨rfl, getMsg_updateMessage_self _ _ _ _ _ hget, ?_, ?_⟩
  · intro mid2 hne
    exact getMsg_updateMessage_ne _ _ _ _ _ hne
  · intro sid2 hne
    exact getMessages_updateMessage_ne _ _ _ _ _ hne

theorem fallbackAssign_none (s : Store) (c : TurnCtx) (e : AgentEvent)
    (hfind : (getMessages s c.sessionId).reverse.find? unresolvedTool = none) :
    fallbackAssign s c e = (s, c) := by
  unfold fallbackAssign
  rw [hfind]


theorem contains_setAddElem_self (l : List String) (x : String) :
    (setAddElem l x).contains x = true := by
  unfold setAddElem
  split
  · assumption
  · simp

theorem contains_setDelElem_self (l : List String) (x : String) :
    (setDelElem l x).contains x = false := by
  unfold setDelElem
  simp

theorem contains_setAddElem_ne (l : List String) (x y : String) (h : y ≠ x) :
    (setAddElem l x).contains y = l.contains y := by
  unfold setAddElem
  split
  · rfl
  · simp [h]

theorem contains_setDelElem_ne (l : List String) (x y : String) (h : y ≠ x) :
    (setDelElem l x).contains y = l.contains y := by
  unfold setDelElem
  simp [List.mem_filter, h]

theorem isSessionLoading_setLoading_self (s : Store) (sid : String) (b : Bool) :
    isSessionLoading (setSessionLoading s sid b) sid = b := by
  unfold isSessionLoading setSessionLoading
  cases b with
  | true => exact contains_setAddElem_self _ _
  | false => exact contains_setDelElem_self _ _

theorem isSessionLoading_setLoading_ne (s : Store) (sid sid2 : String) (b : Bool)
    (h : sid2 ≠ sid) :
    isSessionLoading (setSessionLoading s sid b) sid2 = isSessionLoading s sid2 := by
  unfold isSessionLoading setSessionLoading
  cases b with
  | true => exact contains_setAddElem_ne _ _ _ h
  | false => exact contains_setDelElem_ne _ _ _ h

theorem store_processQueue (g : GlobalSt) (sid : String) :
    (processQueue g sid).fst.store = g.store := by
  unfold processQueue
  split
  · rfl
  · split
    · rfl
    · rfl

theorem turn_processQueue (g : GlobalSt) (sid : String) :
    (processQueue g sid).fst.turn = g.turn := by
  unfold processQueue
  split
  · rfl
  · split
    · rfl
    · rfl

theorem stepEvent_result_eq (s : Store) (c : TurnCtx) (e : AgentEvent)
    (he : e.type = "result") :
    stepEvent s c e = resultBranch (applyAgentIdCapture (tick s) c e) c := by
  unfold stepEvent
  rw [if_neg (by simp [he]), if_neg (by simp [he]), if_neg (by simp [he]),
    if_neg (by simp [he]), if_pos he]

theorem stepEvent_taskOpen_eq (s : Store) (c : TurnCtx) (e : AgentEvent)
    (he1 : e.type = "tool_call") (he2 : e.toolName = some "Task") :
    stepEvent s c e = taskOpenBranch (applyAgentIdCapture (tick s) c e) c e := by
  unfold stepEvent
  rw [if_pos ⟨he1, he2⟩]

theorem updateFirst_length (l : List Msg) (mid : Nat) (u : MsgUpdate) :
    (updateFirst l mid u).length = l.length := by
  have h1 : (idsOf (updateFirst l mid u)).length = (idsOf l).length := by
    rw [idsOf_updateFirst]
  simpa [idsOf] using h1

theorem runEvents_sessionId (es : List AgentEvent) (s : Store) (c : TurnCtx) :
    (runEvents s c es).snd.sessionId = c.sessionId := by
  induction es generalizing s c with
  | nil => rfl
  | cons e es ih =>
      show (runEvents (stepEvent s c e).fst (stepEvent s c e).snd es).snd.sessionId = _
      rw [ih, stepEvent_sessionId]

theorem runEvents_assistantMessageId (es : List AgentEvent) (s : Store) (c : TurnCtx) :
    (runEvents s c es).snd.assistantMessageId = c.assistantMessageId := by
  induction es generalizing s c with
  | nil => rfl
  | cons e es ih =>
      show (runEvents (stepEvent s c e).fst (stepEvent s c e).snd es).snd.assistantMessageId = _
      rw [ih, stepEvent_assistantMessageId]

theorem storeWf_of_entries (s : Store)
    (h : ∀ p ∈ s.messages, listWf p.snd s.nextId) : StoreWf s := by
  intro sid
  unfold getMessages alGet
  cases hf : s.messages.find? (fun p => p.fst == sid) with
  | none =>
      exact ⟨by simp [idsOf], by simp [idsOf]⟩
  | some p =>
      exact h p (List.mem_of_find?_eq_some hf)


/-
Claim theorems.
-/

/-- C8, counterexample: addMessage on a store that does not know the session
id "s1" is not a no-op — it creates the session entry, appends the message
and changes the store. -/
theorem claim_C8_counterexample :
    (getMessages (addMessage {} "s1" { role := "user", content := "hi" }).fst "s1").length
        = 1 ∧
    (addMessage {} "s1" { role := "user", content := "hi" }).fst ≠ ({} : Store) := by
  constructor
  · rfl
  · decide

/-- C8, amended: addMessage invoked with a session id not present in the
store is not a no-op: it creates a fresh message list for that id
(`messages.get(sessionId) || []`), appends the message with a fresh id and
timestamp, returns the id, and leaves every other session unchanged. -/
theorem claim_C8_addMessage_unknown_session (s : Store) (sid : String) (m : Msg)
    (h : alGet s.messages sid = none) :
    (addMessage s sid m).snd = s.nextId ∧
    getMessages (addMessage s sid m).fst sid =
      [{ m with id := s.nextId, timestamp := s.clock }] ∧
    ∀ sid2, sid2 ≠ sid → getMessages (addMessage s sid m).fst sid2 = getMessages s sid2 := by
  refine ⟨rfl, ?_, fun sid2 h2 => getMessages_addMessage_ne _ _ _ _ h2⟩
  rw [getMessages_addMessage_self]
  show (alGet s.messages sid).getD [] ++ _ = _
  rw [h]
  rfl

/-- C8, witness: adding to the empty store under the unknown id "s1"
creates a singleton message list. -/
theorem claim_C8_witness :
    getMessages (addMessage {} "s1" { role := "user", content := "hi" }).fst "s1" =
      [{ role := "user", content := "hi", id := 0, timestamp := 0 }] :=
  (claim_C8_addMessage_unknown_session {} "s1" { role := "user", content := "hi" } rfl).2.1

/-- C10: handleSend with a null session id, an empty-string session id, or a
prompt that trims to the empty string is a complete no-op: the state is
returned unchanged, nothing is queued, no messages are appended, the busy
flag is untouched and no turn is opened. -/
theorem claim_C10_send_noop (g : GlobalSt) (sid? : Option String) (req : QueuedMessage)
    (upload : UploadOutcome)
    (h : sid? = none ∨ sid? = some "" ∨ jsTrim req.prompt = "") :
    handleSend g sid? req upload = (g, none) := by
  rcases h with h | h | h
  · rw [h]
    rfl
  · rw [h]
    unfold handleSend
    dsimp only
    rw [if_pos (show String.isEmpty "" = true ∨ jsTrim req.prompt = "" from
      Or.inl (by decide))]
  · cases sid? with
    | none => rfl
    | some sid =>
        unfold handleSend
        dsimp only
        rw [if_pos (Or.inr h)]

/-- C10, witness: a whitespace-only prompt leaves the empty state untouched. -/
theorem claim_C10_witness :
    handleSend {} (some "s1") { prompt := "   " } (.ok []) = ({}, none) :=
  claim_C10_send_noop {} (some "s1") { prompt := "   " } (.ok [])
    (Or.inr (Or.inr (by decide)))


/-- C6: per-session FIFO queueing.  (i) A submit while the session is busy
only appends the request to the tail of that session's queue: the store
(hence the message lists), the in-flight turn and all other sessions'
queues are unchanged and nothing is dispatched.  (ii) When the turn has
finished (busy flag false), processQueue pops exactly the head of the queue
and hands it back for dispatch, leaving the tail and all other sessions'
queues unchanged — dispatch is one at a time in submission order with none
skipped.  (iii) While the session is still busy, processQueue dispatches
nothing and changes nothing. -/
theorem claim_C6_fifo_queue (g : GlobalSt) (sid : String) (req m : QueuedMessage)
    (rest : List QueuedMessage) (upload : UploadOutcome)
    (hsid : ¬sid.isEmpty) (hprompt : jsTrim req.prompt ≠ "") :
    (isSessionLoading g.store sid = true →
      handleSend g (some sid) req upload =
        ({ g with queues := alSet g.queues sid (queueOf g sid ++ [req]) }, none) ∧
      queueOf (handleSend g (some sid) req upload).fst sid = queueOf g sid ++ [req] ∧
      (handleSend g (some sid) req upload).fst.store = g.store ∧
      (handleSend g (some sid) req upload).fst.turn = g.turn ∧
      ∀ sid2, sid2 ≠ sid →
        queueOf (handleSend g (some sid) req upload).fst sid2 = queueOf g sid2) ∧
    (queueOf g sid = m :: rest → isSessionLoading g.store sid = false →
      processQueue g sid = ({ g with queues := alSet g.queues sid rest }, some m) ∧
      queueOf (processQueue g sid).fst sid = rest ∧
      ∀ sid2, sid2 ≠ sid → queueOf (processQueue g sid).fst sid2 = queueOf g sid2) ∧
    (isSessionLoading g.store sid = true → processQueue g sid = (g, none)) := by
  refine ⟨fun hl => ?_, fun hq hl => ?_, fun hl => ?_⟩
  · have E : handleSend g (some sid) req upload =
        ({ g with queues := alSet g.queues sid (queueOf g sid ++ [req]) }, none) := by
      unfold handleSend
      dsimp only
      rw [if_neg (by rintro (h | h); exact hsid h; exact hprompt h), if_pos hl]
      rfl
    refine ⟨E, ?_, ?_, ?_, ?_⟩
    · rw [E]
      unfold queueOf
      dsimp only
      rw [alGet_alSet_self]
      rfl
    · rw [E]
    · rw [E]
    · intro sid2 h2
      rw [E]
      unfold queueOf
      dsimp only
      rw [alGet_alSet_ne _ _ _ _ h2]
  · have E : processQueue g sid = ({ g with queues := alSet g.queues sid rest }, some m) := by
      unfold processQueue
      rw [show (alGet g.queues sid).getD [] = m :: rest from hq]
      dsimp only
      rw [if_neg (by rw [hl]; exact Bool.false_ne_true)]
    refine ⟨E, ?_, ?_⟩
    · rw [E]
      unfold queueOf
      dsimp only
      rw [alGet_alSet_self]
      rfl
    · intro sid2 h2
      rw [E]
      unfold queueOf
      dsimp only
      rw [alGet_alSet_ne _ _ _ _ h2]
  · unfold processQueue
    split
    · rfl
    · rw [if_pos hl]

/-- C6, witness: with session "s" busy and one request already queued, a
second submit appends to the tail and creates no messages. -/
theorem claim_C6_witness :
    queueOf (handleSend
        { store := { loadingIds := ["s"] }, queues := [("s", [{ prompt := "a" }])] }
        (some "s") { prompt := "hi" } (.ok [])).fst "s" =
      [{ prompt := "a" }, { prompt := "hi" }] := by
  have h := ((claim_C6_fifo_queue
    { store := { loadingIds := ["s"] }, queues := [("s", [{ prompt := "a" }])] }
    "s" { prompt := "hi" } { prompt := "hi" } [] (.ok [])
    (by decide) (by decide)).1 (by decide)).2.1
  rw [h]
  rfl

/-- C7: handleAbort on a busy turn empties the session's queue, clears the
busy flag, releases the turn (the aborted stream fires neither onDone nor
onError, so nothing is auto-dispatched afterwards: processQueue and onDone
on the aborted state dispatch nothing), and finalizes any open Active Task
(loading=false, end time set) without assigning a result — the task's
taskResult and toolResult fields are exactly what they were before. -/
theorem claim_C7_abort_clears_queue (g : GlobalSt) (sid : String)
    (hsid : ¬sid.isEmpty) (hkeys : queueKeysNodup g) :
    queueOf (handleAbort g (some sid)) sid = [] ∧
    isSessionLoading (handleAbort g (some sid)).store sid = false ∧
    (handleAbort g (some sid)).turn = none ∧
    processQueue (handleAbort g (some sid)) sid = (handleAbort g (some sid), none) ∧
    onDone (handleAbort g (some sid)) = (handleAbort g (some sid), none) ∧
    (∀ c act m0, g.turn = some c → c.activeTask = some act →
      getMsg (getMessages g.store sid) act.messageId = some m0 →
      ∃ m1, getMsg (getMessages (handleAbort g (some sid)).store sid) act.messageId =
          some m1 ∧ m1.isTaskLoading = some false ∧ m1.taskEndTime.isSome ∧
        m1.taskResult = m0.taskResult ∧ m1.toolResult = m0.toolResult) := by
  have hq : queueOf (handleAbort g (some sid)) sid = [] := by
    unfold handleAbort queueOf
    dsimp only
    rw [if_pos hsid, alGet_alErase_self _ _ hkeys]
    rfl
  refine ⟨hq, ?_, rfl, ?_, rfl, ?_⟩
  · unfold handleAbort
    dsimp only
    rw [if_pos hsid]
    exact isSessionLoading_setLoading_self _ _ _
  · unfold processQueue
    rw [show (alGet (handleAbort g (some sid)).queues sid).getD [] = [] from hq]
  · intro c act m0 hturn hact hm0
    unfold handleAbort
    dsimp only
    rw [hturn]
    dsimp only
    rw [if_pos hsid, hact, if_pos hsid]
    dsimp only
    rw [getMessages_setSessionLoading]
    have hm0t : getMsg (getMessages (tick g.store) sid) act.messageId = some m0 := hm0
    refine ⟨applyUpd m0 _, getMsg_updateMessage_self _ _ _ _ _ hm0t, rfl, rfl, rfl, rfl⟩

/-- C7, witness: aborting a turn with an open task and two queued entries
leaves an empty queue and a finalized, result-free task message. -/
theorem claim_C7_witness :
    queueOf (handleAbort abortDemoSt (some "s")) "s" = [] ∧
    ∃ m1, getMsg (getMessages (handleAbort abortDemoSt (some "s")).store "s") 1 =
        some m1 ∧ m1.isTaskLoading = some false ∧ m1.taskEndTime.isSome ∧
      m1.taskResult = none ∧ m1.toolResult = none := by
  have h := claim_C7_abort_clears_queue abortDemoSt "s" (by decide)
    (by unfold queueKeysNodup abortDemoSt; decide)
  refine ⟨h.1, ?_⟩
  obtain ⟨m1, hm1, hl, he, hr, htr⟩ := h.2.2.2.2.2 _ _
    { id := 1, role := "task", isTaskLoading := some true } rfl rfl rfl
  exact ⟨m1, hm1, hl, he, hr, htr⟩


/-- C9: processing a terminal (result) event after the assistant
placeholder has already been finalized (streaming=false, completion
timestamp present) does not change the placeholder's content — the result
branch only rewrites the streaming flag and end time. -/
theorem claim_C9_terminal_idempotent (s : Store) (c : TurnCtx) (e : AgentEvent) (m0 : Msg)
    (he : e.type = "result")
    (hm0 : getMsg (getMessages s c.sessionId) c.assistantMessageId = some m0)
    (hfinal : m0.isStreaming = some false) (hend : m0.endTime.isSome) :
    ∃ m1, getMsg (getMessages (stepEvent s c e).fst c.sessionId) c.assistantMessageId =
        some m1 ∧ m1.content = m0.content ∧ m1.isStreaming = some false := by
  rw [stepEvent_result_eq s c e he]
  unfold resultBranch
  dsimp only
  have hm0b : getMsg (getMessages (applyAgentIdCapture (tick s) c e) c.sessionId)
      c.assistantMessageId = some m0 := by
    rw [getMessages_stepBase]
    exact hm0
  obtain ⟨m1, hm1, hc1⟩ := exists_field_finalize (fun x => x.content) _ c _ _ m0.content
    (fun m u hu hc his hen => by
      show (applyUpd m u).content = m.content
      rw [applyUpd_content, hc]) ⟨m0, hm0b, rfl⟩
  refine ⟨applyUpd m1 _, getMsg_updateMessage_self _ _ _ _ _ hm1, ?_, ?_⟩
  · rw [applyUpd_content]
    exact hc1
  · rw [applyUpd_isStreaming]
    rfl

/-- C9, witness: replaying a result event on an already finalized
placeholder keeps its content "done!". -/
theorem claim_C9_witness :
    ∃ m1, getMsg (getMessages (stepEvent finishedDemoStore demoCtx
        { type := "result" }).fst "s") 0 = some m1 ∧
      m1.content = "done!" ∧ m1.isStreaming = some false := by
  obtain ⟨m1, hm1, hc, hs⟩ := claim_C9_terminal_idempotent finishedDemoStore demoCtx
    { type := "result" } finishedDemoMsg rfl (by decide) rfl rfl
  refine ⟨m1, hm1, ?_, hs⟩
  rw [hc]
  rfl

/-- C5: over any event sequence of a turn, the placeholder's final content
is exactly the concatenation of the assistant-delta payloads in arrival
order (starting from the empty placeholder created at turn start); the
accumulator is append-only, so the final accumulated text agrees. -/
theorem claim_C5_text_accumulation (s : Store) (c : TurnCtx) (es : List AgentEvent)
    (hWf : StoreWf s) (hstart : placeholderInv s c) (hempty : c.fullContent = "") :
    ∃ m1, getMsg (getMessages (runEvents s c es).fst c.sessionId)
        c.assistantMessageId = some m1 ∧
      m1.content = concatDeltas es ∧
      (runEvents s c es).snd.fullContent = concatDeltas es := by
  obtain ⟨hW, ⟨⟨m1, hm1, hrole, hcont⟩, hne⟩, hfc⟩ := runEvents_invariants es s c hWf hstart
  rw [runEvents_sessionId] at hm1
  rw [runEvents_assistantMessageId] at hm1
  rw [hempty, String.empty_append] at hfc
  exact ⟨m1, hm1, by rw [hcont, hfc], hfc⟩

/-- C5, witness: two deltas "Hello " and "world" with a tool call between
them leave the placeholder containing "Hello world". -/
theorem claim_C5_witness :
    (∃ m1, getMsg (getMessages (runEvents startDemoStore demoCtx demoDeltas).fst "s") 0 =
        some m1 ∧ m1.content = concatDeltas demoDeltas ∧
      (runEvents startDemoStore demoCtx demoDeltas).snd.fullContent =
        concatDeltas demoDeltas) ∧
    concatDeltas demoDeltas = "Hello world" := by
  refine ⟨?_, by decide⟩
  exact claim_C5_text_accumulation startDemoStore demoCtx demoDeltas
    (storeWf_of_entries _ (by unfold startDemoStore listWf idsOf; decide))
    ⟨⟨startDemoMsg, by decide, rfl, rfl⟩, fun act h => by cases h⟩
    rfl


/-- C4: the Active Task reference is unique by construction (an Option),
and the reconciler maintains the invariant that every task message still
showing loading=true is the one the Active Task reference points at.
(i) The invariant (together with store well-formedness) is preserved by
every reconciler step.  (ii) Whenever the Active Task reference is clear —
in particular after every terminal event, which clears it — no task message
is left with loading=true.  (iii) A task-open event arriving while a task
is active finalizes the previous task's message (loading=false, end time
set, tool count frozen at the current count) and appends the new, loading
task message at the end of the list, with the Active Task reference moved
to the fresh message. -/
theorem claim_C4_single_active_task (s : Store) (c : TurnCtx) (e : AgentEvent)
    (hWf : StoreWf s) (hInv : taskLoadingInv s c) :
    (taskLoadingInv (stepEvent s c e).fst (stepEvent s c e).snd ∧
      StoreWf (stepEvent s c e).fst) ∧
    (c.activeTask = none →
      ∀ m ∈ getMessages s c.sessionId, m.isTaskLoading ≠ some true) ∧
    (∀ act m0, e.type = "tool_call" → e.toolName = some "Task" →
      c.activeTask = some act →
      getMsg (getMessages s c.sessionId) act.messageId = some m0 →
      ∃ m1, getMsg (getMessages (stepEvent s c e).fst c.sessionId) act.messageId =
          some m1 ∧
        m1.isTaskLoading = some false ∧ m1.taskEndTime.isSome ∧
        m1.taskToolCount = some act.toolCount ∧
      ∃ mnew, (getMessages (stepEvent s c e).fst c.sessionId).getLast? = some mnew ∧
        (getMessages (stepEvent s c e).fst c.sessionId).length =
          (getMessages s c.sessionId).length + 1 ∧
        mnew.isTaskLoading = some true ∧ mnew.role = "task" ∧
        ∃ act2, (stepEvent s c e).snd.activeTask = some act2 ∧
          act2.messageId = mnew.id ∧ act2.messageId ≠ act.messageId) := by
  refine ⟨⟨taskLoadingInv_step s c e hWf hInv, storeWf_stepEvent s c e hWf⟩, ?_, ?_⟩
  · intro hnone m hm hload
    obtain ⟨act, ha, _⟩ := hInv m hm hload
    rw [hnone] at ha
    cases ha
  · intro act m0 he1 he2 hact hm0
    rw [stepEvent_taskOpen_eq s c e he1 he2]
    have hm0B : getMsg (getMessages (applyAgentIdCapture (tick s) c e) c.sessionId)
        act.messageId = some m0 := by
      rw [getMessages_stepBase]
      exact hm0
    have hF : (finalizeActiveTask (applyAgentIdCapture (tick s) c e) c).fst =
        updateMessage (applyAgentIdCapture (tick s) c e) c.sessionId act.messageId
          { isTaskLoading := some false,
            taskEndTime := some (applyAgentIdCapture (tick s) c e).clock,
            taskToolCount := some act.toolCount } := by
      unfold finalizeActiveTask
      rw [hact]
    unfold taskOpenBranch
    dsimp only
    rw [hF]
    refine ⟨applyUpd m0
      { isTaskLoading := some false,
        taskEndTime := some (applyAgentIdCapture (tick s) c e).clock,
        taskToolCount := some act.toolCount }, ?_, rfl, rfl, rfl, ?_⟩
    · apply getMsg_addMessage_old
      exact getMsg_updateMessage_self _ _ _ _ _ hm0B
    · rw [getMessages_addMessage_self]
      refine ⟨_, List.getLast?_concat _, ?_, rfl, rfl, ?_⟩
      · rw [List.length_append, getMessages_updateMessage_self, updateFirst_length,
          getMessages_stepBase]
        rfl
      · refine ⟨_, rfl, rfl, ?_⟩
        dsimp only
        rw [addMessage_snd, nextId_updateMessage, nextId_capture]
        intro he
        have hlt : act.messageId < s.nextId := getMsg_id_lt s _ _ _ hWf hm0
        rw [← he] at hlt
        exact lt_irrefl _ hlt

/-- C4, witness: at a state with no active task and one (non-loading)
message, the invariant is preserved and clear-reference implies nothing is
loading. -/
theorem claim_C4_witness :
    taskLoadingInv (stepEvent finishedDemoStore demoCtx { type := "result" }).fst
      (stepEvent finishedDemoStore demoCtx { type := "result" }).snd ∧
    ∀ m ∈ getMessages finishedDemoStore "s", m.isTaskLoading ≠ some true := by
  have h := claim_C4_single_active_task finishedDemoStore demoCtx { type := "result" }
    (storeWf_of_entries _ (by unfold finishedDemoStore listWf idsOf; decide))
    (by
      intro m hm hload
      rw [show getMessages finishedDemoStore demoCtx.sessionId = [finishedDemoMsg]
        from rfl] at hm
      rw [List.mem_singleton] at hm
      subst hm
      exact absurd hload (by decide))
  exact ⟨h.1.1, h.2.1 rfl⟩


/-- C3, counterexample: JS falsiness in the fallback scan
(`!m.toolResult`) lets a second tool-result event overwrite a previously
assigned empty-string result: after a tool call and a tool-result carrying
"", the message's result is the empty string; a later tool-result event
carrying "X" replaces it. -/
theorem claim_C3_counterexample :
    ((getMsg (getMessages (runEvents ({} : Store) cxDemoCtx
        [{ type := "tool_call", toolName := some "Read" },
         { type := "tool_result", toolResult := .strPlain "" }]).fst "s") 0).map
      (fun m => m.toolResult) = some (some (.strPlain ""))) ∧
    ((getMsg (getMessages (runEvents ({} : Store) cxDemoCtx
        [{ type := "tool_call", toolName := some "Read" },
         { type := "tool_result", toolResult := .strPlain "" },
         { type := "tool_result", toolResult := .strPlain "X" }]).fst "s") 0).map
      (fun m => m.toolResult) = some (some (.strPlain "X"))) := by
  exact ⟨rfl, rfl⟩

/-- C3, amended: a tool message's result transitions at most once from
absent-or-falsy to a truthy value: once a message holds a truthy (JS sense)
result — any non-empty string or any array — no later event of the turn
changes it.  (A falsy result, e.g. the empty string, still matches the
`!m.toolResult` scan and may be reassigned, as the counterexample shows.)
A task message's result is likewise set only by the correlation-matching
branch, which immediately clears the Active Task reference. -/
theorem claim_C3_result_write_once (s : Store) (c : TurnCtx) (es : List AgentEvent)
    (sid : String) (mid : Nat) (m : Msg) (r : ToolResultPayload)
    (hWf : StoreWf s) (hm : getMsg (getMessages s sid) mid = some m)
    (hr : m.toolResult = some r) (ht : r.isFalsy = false) :
    ∃ m2, getMsg (getMessages (runEvents s c es).fst sid) mid = some m2 ∧
      m2.toolResult = some r := by
  induction es generalizing s c m with
  | nil => exact ⟨m, hm, hr⟩
  | cons e es ih =>
      obtain ⟨m1, hm1, hr1⟩ := toolResult_stable_step s c e hWf sid mid m r hm hr ht
      exact ih (stepEvent s c e).fst (stepEvent s c e).snd m1
        (storeWf_stepEvent s c e hWf) hm1 hr1

/-- C3, witness: a truthy result "ok" survives a further tool-result
event. -/
theorem claim_C3_witness :
    ∃ m2, getMsg (getMessages (runEvents toolDemoStore demoCtx
        [{ type := "tool_result", toolResult := .strPlain "X" }]).fst "s") 0 =
      some m2 ∧ m2.toolResult = some (.strPlain "ok") := by
  exact claim_C3_result_write_once toolDemoStore demoCtx
    [{ type := "tool_result", toolResult := .strPlain "X" }] "s" 0
    toolDemoMsg (.strPlain "ok")
    (storeWf_of_entries _ (by unfold toolDemoStore listWf idsOf; decide))
    rfl rfl rfl


/-- C1, counterexample: the fallback scan treats a falsy (empty-string)
result as "no result yet".  After two tool calls (messages 0 and 1) and a
first result carrying "", message 1 holds the empty-string result and
message 0 holds none; the claim then routes the next result "done" to
message 0 (the most recent tool message with no result yet), but the code
routes it to message 1, overwriting its result, and message 0 stays
unresolved. -/
theorem claim_C1_counterexample :
    ((getMsg (getMessages (runEvents ({} : Store) cxDemoCtx
        [{ type := "tool_call", toolName := some "Read", toolId := some "A" },
         { type := "tool_call", toolName := some "Bash", toolId := some "B" },
         { type := "tool_result", toolId := some "X", toolResult := .strPlain "" }]).fst
        "s") 1).map (fun m => m.toolResult) = some (some (.strPlain ""))) ∧
    ((getMsg (getMessages (runEvents ({} : Store) cxDemoCtx
        [{ type := "tool_call", toolName := some "Read", toolId := some "A" },
         { type := "tool_call", toolName := some "Bash", toolId := some "B" },
         { type := "tool_result", toolId := some "X", toolResult := .strPlain "" },
         { type := "tool_result", toolId := some "Y", toolResult := .strPlain "done" }]).fst
        "s") 0).map (fun m => m.toolResult) = some none) ∧
    ((getMsg (getMessages (runEvents ({} : Store) cxDemoCtx
        [{ type := "tool_call", toolName := some "Read", toolId := some "A" },
         { type := "tool_call", toolName := some "Bash", toolId := some "B" },
         { type := "tool_result", toolId := some "X", toolResult := .strPlain "" },
         { type := "tool_result", toolId := some "Y", toolResult := .strPlain "done" }]).fst
        "s") 1).map (fun m => m.toolResult) = some (some (.strPlain "done"))) := by
  exact ⟨rfl, rfl, rfl⟩

/-- C1, amended: routing of a tool-result event.  (A) If an Active Task
exists and the event carries a non-empty correlation id equal to the
stored one, the task message is finalized (loading=false, end time set,
tool count frozen, result text extracted from the payload) and the Active
Task is cleared, all other messages unchanged.  (B) Otherwise the result
is assigned to the most recently appended tool message whose result is
absent or falsy (the newest-to-oldest scan of
`m.role === "tool" && !m.toolResult`): the found message is the last
list entry satisfying that predicate; its result becomes the raw payload;
everything else, including the Active Task reference, is unchanged.
(C) If no such message exists the event is dropped with no change to any
session's messages or to the turn state. -/
theorem claim_C1_tool_result_routing (s : Store) (c : TurnCtx) (e : AgentEvent)
    (hWf : StoreWf s) (he : e.type = "tool_result") :
    (∀ act tid m0, c.activeTask = some act → e.toolId = some tid → tid ≠ "" →
      act.toolId = some tid →
      getMsg (getMessages s c.sessionId) act.messageId = some m0 →
      (stepEvent s c e).snd.activeTask = none ∧
      (∃ m1, getMsg (getMessages (stepEvent s c e).fst c.sessionId) act.messageId =
          some m1 ∧ m1.isTaskLoading = some false ∧ m1.taskEndTime.isSome ∧
        m1.taskToolCount = some act.toolCount ∧
        m1.taskResult = some (extractTextFromResult e.toolResult)) ∧
      ∀ mid2, mid2 ≠ act.messageId →
        getMsg (getMessages (stepEvent s c e).fst c.sessionId) mid2 =
          getMsg (getMessages s c.sessionId) mid2) ∧
    (¬taskResultMatches c e →
      ∀ mt, (getMessages s c.sessionId).reverse.find? unresolvedTool = some mt →
      (∃ l1 l2, getMessages s c.sessionId = l1 ++ mt :: l2 ∧
        unresolvedTool mt = true ∧ ∀ x ∈ l2, unresolvedTool x = false) ∧
      (stepEvent s c e).snd = c ∧
      (∃ m1, getMsg (getMessages (stepEvent s c e).fst c.sessionId) mt.id = some m1 ∧
        m1.toolResult = some e.toolResult) ∧
      ∀ mid2, mid2 ≠ mt.id →
        getMsg (getMessages (stepEvent s c e).fst c.sessionId) mid2 =
          getMsg (getMessages s c.sessionId) mid2) ∧
    (¬taskResultMatches c e →
      (getMessages s c.sessionId).reverse.find? unresolvedTool = none →
      (∀ x ∈ getMessages s c.sessionId, unresolvedTool x = false) ∧
      (stepEvent s c e).snd = c ∧
      ∀ sid2, getMessages (stepEvent s c e).fst sid2 = getMessages s sid2) := by
  rw [stepEvent_toolResult_eq s c e he]
  refine ⟨?_, ?_, ?_⟩
  · intro act tid m0 hact htid htne hmatch hm0
    have hm0B : getMsg (getMessages (applyAgentIdCapture (tick s) c e) c.sessionId)
        act.messageId = some m0 := by
      rw [getMessages_stepBase]
      exact hm0
    rw [toolResultBranch_match _ c e act tid hact htid
      ⟨fun h0 => htne ((String.isEmpty_iff tid).mp h0), hmatch⟩]
    refine ⟨rfl, ⟨applyUpd m0
      { isTaskLoading := some false,
        taskEndTime := some (applyAgentIdCapture (tick s) c e).clock,
        taskToolCount := some act.toolCount,
        taskResult := some (extractTextFromResult e.toolResult) },
      getMsg_updateMessage_self _ _ _ _ _ hm0B, rfl, rfl, rfl, rfl⟩, ?_⟩
    intro mid2 hne2
    show getMsg (getMessages (updateMessage _ _ _ _) c.sessionId) mid2 = _
    rw [getMsg_updateMessage_ne _ _ _ _ _ hne2, getMessages_stepBase]
  · intro hnm mt hfind
    have hfindB : (getMessages (applyAgentIdCapture (tick s) c e)
        c.sessionId).reverse.find? unresolvedTool = some mt := by
      rw [getMessages_stepBase]
      exact hfind
    rw [toolResultBranch_fallback _ c e hnm]
    obtain ⟨hsnd, hself, hne, hother⟩ := fallbackAssign_found _ c e mt
      (storeWf_stepBase s c e hWf) hfindB
    obtain ⟨l1, l2, hdecomp, hp, hlast⟩ := reverse_find?_eq_some _ _ _ hfind
    refine ⟨⟨l1, l2, hdecomp, hp, hlast⟩, hsnd, ⟨_, hself, ?_⟩, ?_⟩
    · rw [applyUpd_toolResult]
      rfl
    · intro mid2 hne2
      rw [hne mid2 hne2, getMessages_stepBase]
  · intro hnm hfind
    have hfindB : (getMessages (applyAgentIdCapture (tick s) c e)
        c.sessionId).reverse.find? unresolvedTool = none := by
      rw [getMessages_stepBase]
      exact hfind
    rw [toolResultBranch_fallback _ c e hnm, fallbackAssign_none _ c e hfindB]
    refine ⟨reverse_find?_eq_none _ _ hfind, rfl, ?_⟩
    intro sid2
    exact getMessages_stepBase s c e sid2

/-- C1, witness: with no unresolved tool message and no matching Active
Task, a tool-result event is dropped: every session's messages are
unchanged. -/
theorem claim_C1_witness :
    (stepEvent finishedDemoStore demoCtx { type := "tool_result" }).snd = demoCtx ∧
    ∀ sid2, getMessages (stepEvent finishedDemoStore demoCtx
        { type := "tool_result" }).fst sid2 = getMessages finishedDemoStore sid2 := by
  have h := (claim_C1_tool_result_routing finishedDemoStore demoCtx
    { type := "tool_result" }
    (storeWf_of_entries _ (by unfold finishedDemoStore listWf idsOf; decide))
    rfl).2.2
    (by
      rintro ⟨act, tid, hact, h2⟩
      rw [show demoCtx.activeTask = none from rfl] at hact
      cases hact) rfl
  exact ⟨h.2.1, h.2.2⟩


/-- C2, counterexample: (i) a turn that completes with no text deltas is
finalized with EMPTY content (the claim requires non-empty content);
(ii) finalization is not exactly-once — the result event sets the
completion timestamp (clock 2) and the stream-end callback overwrites it
(clock 3); (iii) a user abort does not finalize the placeholder at all: it
stays streaming=true with no completion timestamp. -/
theorem claim_C2_counterexample :
    ((getMsg (getMessages (deliverEvent
        (handleSend ({} : GlobalSt) (some "s") { prompt := "hi" } (.ok [])).fst
        { type := "result" }).store "s") 1).map
      (fun m => (m.isStreaming, m.endTime, m.content)) =
        some (some false, some 2, "")) ∧
    ((getMsg (getMessages (onDone (deliverEvent
        (handleSend ({} : GlobalSt) (some "s") { prompt := "hi" } (.ok [])).fst
        { type := "result" })).fst.store "s") 1).map
      (fun m => (m.isStreaming, m.endTime, m.content)) =
        some (some false, some 3, "")) ∧
    ((getMsg (getMessages (handleAbort
        (handleSend ({} : GlobalSt) (some "s") { prompt := "hi" } (.ok [])).fst
        (some "s")).store "s") 1).map
      (fun m => (m.isStreaming, m.endTime, m.content)) =
        some (some true, none, "")) := by
  exact ⟨rfl, rfl, rfl⟩

/-- C2, amended: for an in-flight turn, normal completion (the onDone
stream-end callback) and stream error (onError) both leave the placeholder
with streaming=false and a completion timestamp; the content is the
accumulated text on completion (possibly empty) and the error string on
error.  These finalization updates may be applied more than once (a result
event followed by stream end applies them twice, idempotently except for
the timestamp).  A user abort does not finalize the placeholder: its
streaming flag, completion timestamp and content are left exactly as they
were. -/
theorem claim_C2_finalization (g : GlobalSt) (c : TurnCtx) (m0 : Msg) (emsg : String)
    (hturn : g.turn = some c) (hsid : ¬c.sessionId.isEmpty)
    (hm0 : getMsg (getMessages g.store c.sessionId) c.assistantMessageId = some m0) :
    (∃ m1, getMsg (getMessages (onDone g).fst.store c.sessionId)
        c.assistantMessageId = some m1 ∧ m1.isStreaming = some false ∧
      m1.endTime.isSome ∧ m1.content = m0.content) ∧
    (∃ m1, getMsg (getMessages (onError g emsg).fst.store c.sessionId)
        c.assistantMessageId = some m1 ∧ m1.isStreaming = some false ∧
      m1.endTime.isSome ∧ m1.content = "Error: " ++ emsg) ∧
    (∃ m1, getMsg (getMessages (handleAbort g (some c.sessionId)).store c.sessionId)
        c.assistantMessageId = some m1 ∧ m1.isStreaming = m0.isStreaming ∧
      m1.endTime = m0.endTime ∧ m1.content = m0.content) := by
  have hm0t : getMsg (getMessages (tick g.store) c.sessionId) c.assistantMessageId =
      some m0 := hm0
  refine ⟨?_, ?_, ?_⟩
  · unfold onDone
    rw [hturn]
    dsimp only
    rw [store_processQueue, getMessages_setSessionLoading]
    have h2 : ∃ mA, getMsg (getMessages (match c.activeTask with
        | some act => updateMessage (tick g.store) c.sessionId act.messageId
            { isTaskLoading := some false, taskEndTime := some (tick g.store).clock }
        | none => tick g.store) c.sessionId) c.assistantMessageId = some mA ∧
        mA.content = m0.content := by
      cases hact : c.activeTask with
      | none => exact ⟨m0, hm0t, rfl⟩
      | some act =>
          dsimp only
          exact exists_field_update (fun x => x.content) _ _ _ _ _ _ _
            (fun m3 => by
              show (applyUpd m3 _).content = m3.content
              rw [applyUpd_content]) ⟨m0, hm0t, rfl⟩
    obtain ⟨mA, hmA, hcA⟩ := h2
    refine ⟨applyUpd mA _, getMsg_updateMessage_self _ _ _ _ _ hmA, rfl, rfl, ?_⟩
    rw [applyUpd_content]
    exact hcA
  · unfold onError
    rw [hturn]
    dsimp only
    rw [store_processQueue, getMessages_setSessionLoading]
    have h2 : ∃ mA, getMsg (getMessages (match c.activeTask with
        | some act => updateMessage (tick g.store) c.sessionId act.messageId
            { isTaskLoading := some false, taskEndTime := some (tick g.store).clock }
        | none => tick g.store) c.sessionId) c.assistantMessageId = some mA ∧
        mA.content = m0.content := by
      cases hact : c.activeTask with
      | none => exact ⟨m0, hm0t, rfl⟩
      | some act =>
          dsimp only
          exact exists_field_update (fun x => x.content) _ _ _ _ _ _ _
            (fun m3 => by
              show (applyUpd m3 _).content = m3.content
              rw [applyUpd_content]) ⟨m0, hm0t, rfl⟩
    obtain ⟨mA, hmA, hcA⟩ := h2
    exact ⟨applyUpd mA _, getMsg_updateMessage_self _ _ _ _ _ hmA, rfl, rfl, rfl⟩
  · unfold handleAbort
    rw [hturn]
    dsimp only
    rw [if_pos hsid, if_pos hsid]
    rw [getMessages_setSessionLoading]
    cases hact : c.activeTask with
    | none => exact ⟨m0, hm0t, rfl, rfl, rfl⟩
    | some act =>
        dsimp only
        have h2 : ∃ m1, getMsg (getMessages (updateMessage (tick g.store) c.sessionId
            act.messageId
            { isTaskLoading := some false, taskEndTime := some (tick g.store).clock })
            c.sessionId) c.assistantMessageId = some m1 ∧
            (m1.isStreaming, m1.endTime, m1.content) =
              (m0.isStreaming, m0.endTime, m0.content) :=
          exists_field_update (fun x => (x.isStreaming, x.endTime, x.content)) _ _ _ _ _ _
            (m0.isStreaming, m0.endTime, m0.content)
            (fun m3 => by simp [applyUpd, updField]) ⟨m0, hm0t, rfl⟩
        obtain ⟨m1, hm1, htup⟩ := h2
        simp only [Prod.mk.injEq] at htup
        exact ⟨m1, hm1, htup.1, htup.2.1, htup.2.2⟩

/-- C2, witness: finalization behavior at a concrete in-flight turn with an
empty streaming placeholder. -/
theorem claim_C2_witness :
    (∃ m1, getMsg (getMessages (onDone turnDemoSt).fst.store "s") 0 = some m1 ∧
      m1.isStreaming = some false ∧ m1.endTime.isSome ∧ m1.content = "") ∧
    ∃ m1, getMsg (getMessages (handleAbort turnDemoSt (some "s")).store "s") 0 =
        some m1 ∧ m1.isStreaming = some true ∧ m1.endTime = none := by
  have h := claim_C2_finalization turnDemoSt demoCtx startDemoMsg "boom"
    rfl (by decide) (by decide)
  refine ⟨?_, ?_⟩
  · obtain ⟨m1, hm1, hs, he, hc⟩ := h.1
    exact ⟨m1, hm1, hs, he, hc⟩
  · obtain ⟨m1, hm1, hs, he, hc⟩ := h.2.2
    exact ⟨m1, hm1, hs, he⟩

end CCWeb
